import Mathlib

/-! devchart: text tables, bar graphs and line graphs.

A shallow embedding of the three renderers of the repository
(`table/table.go`, `graph/bar.go`, `graph/line.go`) and the properties
their specification states about them.

Conventions of the embedding:

* a Go `string` is the list of its runes (`Str`), so that
  `utf8.RuneCountInString` is `List.length`;
* Go `int` is 64 bits wide, as on amd64 and arm64: the arithmetic of the table
  widths, where a large padding overflows, wraps around (`Go.add`, `Go.sub`,
  `Go.mul`, `Go.div` on `Int`); a run-time panic (negative `strings.Repeat`
  count, index out of range, negative `make` size) is made explicit as `none`
  or as the `Abort.panic` outcome; memory is not bounded;
* the `io.Writer` is a `Sink`: the outcomes of its future writes, and the
  log of the writes issued so far; a renderer is a function from sinks to a
  sink and an outcome (explicit state passing);
* the renderers take the `float64` operations they use as a parameter
  (`Float64`). `Float64.ieee` is the arithmetic of the Go runtime, IEEE-754
  binary64 with rounding to nearest, infinities and NaN, on which the
  numerical properties are stated. What holds for any operations is stated
  for any; `Float64.exact` (rationals) and `Float64.withNaN` are further
  instances that serve as examples there.
-/

namespace Devchart

/-- A Go string, as the sequence of its runes. -/
abbrev Str := List Char

/-! ## The type `int` -/

namespace Go

/-- The largest value of the type `int`. -/
def maxInt : Int := 9223372036854775807

/-- The smallest value of the type `int`. -/
def minInt : Int := -9223372036854775808

/-- The value an integer result has in the type `int`: two's complement
arithmetic wraps around modulo 2^64. -/
def wrap (x : Int) : Int :=
  (x + 9223372036854775808) % 18446744073709551616 - 9223372036854775808

/-- The sum `a + b` of two `int`. -/
def add (a b : Int) : Int := wrap (a + b)

/-- The difference `a - b` of two `int`. -/
def sub (a b : Int) : Int := wrap (a - b)

/-- The product `a * b` of two `int`. -/
def mul (a b : Int) : Int := wrap (a * b)

/-- The quotient `a / b` of two `int`: truncated toward zero. -/
def div (a b : Int) : Int := wrap (a.tdiv b)

end Go

/-! ## The library functions the renderers call -/

namespace strings

/-- Go `strings.Repeat(s, count)`: `count` copies of `s`; it panics on a
negative count (`none`). -/
def Repeat (s : Str) (count : Int) : Option Str :=
  if count < 0 then none else some (List.replicate count.toNat s).flatten

end strings

namespace utf8

/-- Go `utf8.RuneCountInString`. -/
def RuneCountInString (s : Str) : Int := (s.length : Int)

end utf8

namespace fmt

/-- The `tooLarge` of package fmt: a width taken from an argument (`*`) is
refused when its magnitude is above a million. -/
def tooLarge (x : Int) : Bool := decide (x > 1000000 ∨ x < -1000000)

/-- The `badWidthString` of package fmt. -/
def badWidthString : Str := "%!(BADWIDTH)".toList

/-- Go `fmt.Sprintf("%*s", width, s)` (`minus = false`) and
`fmt.Sprintf("%-*s", width, s)` (`minus = true`): `s` padded with spaces to
`width` runes, on the left, or on the right with the minus flag; a negative
width taken from `*` sets the minus flag and is used in absolute value; a
width that is too large is reported in the output and `s` is not padded. -/
def SprintfPad (minus : Bool) (width : Int) (s : Str) : Str :=
  if tooLarge width then badWidthString ++ s
  else
    let minus := if width < 0 then true else minus
    let width := if width < 0 then -width else width
    let fill := List.replicate (width - (s.length : Int)).toNat ' '
    if minus then s ++ fill else fill ++ s

end fmt

/-! ## The output sink -/

/-- Why a render stopped early: a write error it returns, or a panic. -/
inductive Abort (ε : Type) where
  | err (e : ε)
  | panic
  deriving DecidableEq, Repr

/-- An `io.Writer`: the outcome of each future write (`none` is success, a
write past the end of the list succeeds) and the writes issued so far. -/
structure Sink (ε : Type) where
  outcomes : List (Option ε)
  written : List Str
  deriving DecidableEq, Repr

/-- A sink none of whose writes fails, with nothing written yet. -/
def Sink.reliable (ε : Type) : Sink ε := { outcomes := [], written := [] }

/-- A piece of a renderer: it takes the sink and gives the sink back with
`none` (go on; at the end of `Render`: `return nil`) or the reason it
stopped. -/
abbrev Act (ε : Type) := Sink ε → Sink ε × Option (Abort ε)

namespace Act

variable {ε : Type}

/-- Nothing to do. -/
def skip : Act ε := fun s => (s, none)

/-- A run-time panic. -/
def panic : Act ε := fun s => (s, some Abort.panic)

/-- The statement `_, err := w.Write([]byte(b)); if err != nil { return err }`. -/
def write (b : Str) : Act ε := fun s =>
  match s.outcomes with
  | [] => ({ outcomes := [], written := s.written ++ [b] }, none)
  | o :: os => ({ outcomes := os, written := s.written ++ [b] }, o.map Abort.err)

/-- The same statement when computing the argument may panic. -/
def writeOpt : Option Str → Act ε
  | none => panic
  | some b => write b

/-- Sequencing: `b` runs only if `a` did not stop the render. -/
def seq (a b : Act ε) : Act ε := fun s =>
  match a s with
  | (s', none) => b s'
  | (s', some r) => (s', some r)

/-- Go `if c { a }`. -/
def when (c : Bool) (a : Act ε) : Act ε := if c then a else skip

/-- Go `for i, x := range xs { body i x }`, the index starting at `i`. -/
def forRangeFrom {α : Type} (body : Nat → α → Act ε) : Nat → List α → Act ε
  | _, [] => skip
  | i, x :: xs => seq (body i x) (forRangeFrom body (i + 1) xs)

/-- Go `for i, x := range xs { body i x }`. -/
def forRange {α : Type} (xs : List α) (body : Nat → α → Act ε) : Act ε :=
  forRangeFrom body 0 xs

end Act

/-! ## table/options.go -/

namespace table

/-- Go `type Alignment int`. -/
abbrev Alignment := Int

def AlignLeft : Alignment := 0
def AlignCenter : Alignment := 1
def AlignRight : Alignment := 2

/-- Go `type BorderStyle int`. -/
abbrev BorderStyle := Int

def BorderSingle : BorderStyle := 0
def BorderDouble : BorderStyle := 1
def BorderNone : BorderStyle := 2

/-- Customization options. -/
structure Options where
  BorderStyle : table.BorderStyle
  Alignment : table.Alignment
  Padding : Int
  deriving DecidableEq, Repr

def DefaultOptions : Options :=
  { BorderStyle := BorderSingle, Alignment := AlignLeft, Padding := 1 }

/-! ## table/table.go -/

/-- The table: `headers` is `none` for a nil slice (headers never set). -/
structure Table where
  headers : Option (List Str)
  data : List (List Str)
  options : Options
  deriving DecidableEq, Repr

def NewTable : Table := { headers := none, data := [], options := DefaultOptions }

def Table.SetHeaders (t : Table) (headers : Option (List Str)) : Table :=
  { t with headers := headers }

def Table.SetData (t : Table) (data : List (List Str)) : Table :=
  { t with data := data }

def Table.SetOptions (t : Table) (options : Options) : Table :=
  { t with options := options }

/-- The local `numCols` of `calculateColumnWidths`: the header count when
headers are set, else the length of the first row (0 without rows). -/
def Table.numCols (t : Table) : Nat :=
  match t.headers with
  | some hs => hs.length
  | none =>
    match t.data with
    | row0 :: _ => if row0.length > 0 then row0.length else 0
    | [] => 0

/-- The expression `utf8.RuneCountInString(cell) + (t.options.Padding * 2)`
of `calculateColumnWidths`, in `int`. -/
def Table.cellWidth (t : Table) (cell : Str) : Int :=
  Go.add (utf8.RuneCountInString cell) (Go.mul t.options.Padding 2)

/-- The header loop of `calculateColumnWidths`:
`widths[i] = RuneCount(header) + Padding*2`. -/
def Table.headerWidths (t : Table) (widths : List Int) (hs : List Str) : List Int :=
  hs.enum.foldl (fun widths ih => widths.set ih.1 (t.cellWidth ih.2)) widths

/-- The inner data loop of `calculateColumnWidths` over one row. -/
def Table.rowWidths (t : Table) (numCols : Nat) (widths : List Int) (row : List Str) :
    List Int :=
  row.enum.foldl
    (fun widths ic =>
      if ic.1 ≥ numCols then widths
      else
        let cellWidth := t.cellWidth ic.2
        if cellWidth > widths.getD ic.1 0 then widths.set ic.1 cellWidth else widths)
    widths

/-- Go `calculateColumnWidths`. -/
def Table.calculateColumnWidths (t : Table) : List Int :=
  let numCols := t.numCols
  if numCols = 0 then []
  else
    let widths := List.replicate numCols (0 : Int)
    let widths :=
      match t.headers with
      | some hs => t.headerWidths widths hs
      | none => widths
    t.data.foldl (t.rowWidths numCols) widths

/-- Go `getBorderChars`: (hBorder, vBorder, junction). -/
def Table.getBorderChars (t : Table) : Str × Str × Str :=
  if t.options.BorderStyle = BorderDouble then (['═'], ['║'], ['╬'])
  else if t.options.BorderStyle = BorderNone then ([' '], [' '], [' '])
  else (['─'], ['│'], ['┼'])

/-- Go `getHorizontalBorderLine`; `none` when `strings.Repeat` panics. -/
def Table.getHorizontalBorderLine (t : Table) (columnWidths : List Int)
    (junctionChar : Str) : Option Str :=
  let hBorder := t.getBorderChars.1
  (columnWidths.foldl
    (fun line width =>
      match line, strings.Repeat hBorder width with
      | some line, some bar => some (line ++ bar ++ junctionChar)
      | _, _ => none)
    (some junctionChar)).map (fun line => line ++ ['\n'])

/-- Go `renderCell`; `none` when `strings.Repeat` panics. -/
def Table.renderCell (t : Table) (cell : Str) (width : Int) : Option Str :=
  match strings.Repeat [' '] t.options.Padding with
  | none => none
  | some padding =>
    let contentWidth := Go.sub width (Go.mul t.options.Padding 2)
    let contentWidth := if contentWidth < 0 then 0 else contentWidth
    let cellRuneCount := utf8.RuneCountInString cell
    let formattedCell : Option Str :=
      if t.options.Alignment = AlignCenter then
        let paddingSize := Go.div (Go.sub contentWidth cellRuneCount) 2
        let paddingSize := if paddingSize < 0 then 0 else paddingSize
        match strings.Repeat [' '] paddingSize with
        | none => none
        | some cellPadding =>
          some (fmt.SprintfPad true contentWidth (cellPadding ++ cell ++ cellPadding))
      else if t.options.Alignment = AlignRight then
        some (fmt.SprintfPad false contentWidth cell)
      else
        some (fmt.SprintfPad true contentWidth cell)
    formattedCell.map (fun formattedCell => padding ++ formattedCell ++ padding)

/-- The write `w.Write([]byte(t.renderCell(cell, width) + vBorder))`. -/
def Table.writeCell {ε : Type} (t : Table) (cell : Str) (width : Int) (vBorder : Str) :
    Act ε :=
  Act.writeOpt ((t.renderCell cell width).map (fun cellContent => cellContent ++ vBorder))

/-- The condition `t.options.BorderStyle != BorderNone && len(columnWidths) > 0`
of `Render`. -/
def Table.bordered (t : Table) : Bool :=
  t.options.BorderStyle ≠ BorderNone ∧ t.calculateColumnWidths.length > 0

/-- The write `w.Write([]byte(t.getHorizontalBorderLine(columnWidths, junction)))`
of `Render`. -/
def Table.writeBorderLine {ε : Type} (t : Table) : Act ε :=
  Act.writeOpt (t.getHorizontalBorderLine t.calculateColumnWidths t.getBorderChars.2.2)

/-- Go `Render`. -/
def Table.Render {ε : Type} (t : Table) : Act ε :=
  let columnWidths := t.calculateColumnWidths
  let vBorder := t.getBorderChars.2.1
  -- top border
  Act.seq (Act.when t.bordered t.writeBorderLine) <|
  -- headers
  Act.seq
    (match t.headers with
     | none => Act.skip
     | some hs =>
       Act.seq (Act.when t.bordered (Act.write vBorder)) <|
       Act.seq
         (Act.forRange hs fun i header =>
           match columnWidths[i]? with
           | none => Act.panic
           | some width => t.writeCell header width vBorder) <|
       Act.seq (Act.write ['\n']) <|
       Act.when t.bordered t.writeBorderLine) <|
  -- data rows
  Act.seq
    (Act.forRange t.data fun _ row =>
       Act.seq (Act.when t.bordered (Act.write vBorder)) <|
       Act.seq
         (Act.forRange row fun i cell =>
           if i ≥ columnWidths.length then t.writeCell cell 0 vBorder
           else
             match columnWidths[i]? with
             | none => Act.panic
             | some width => t.writeCell cell width vBorder) <|
       Act.seq (Act.write ['\n']) <|
       Act.when t.bordered t.writeBorderLine) <|
  -- bottom border
  Act.when (t.bordered ∧ (t.data.length > 0 ∨ t.headers ≠ none)) t.writeBorderLine

end table

/-! ## float64 -/

/-- The `float64` operations the graph renderers use. -/
structure Float64 (F : Type) where
  /-- the conversion `float64(n)`, and the literals -/
  ofInt : Int → F
  /-- the comparison `a < b` -/
  lt : F → F → Bool
  /-- the comparison `a == b` -/
  eq : F → F → Bool
  add : F → F → F
  sub : F → F → F
  mul : F → F → F
  div : F → F → F
  /-- Go `math.Round`: to the nearest integer, halves away from zero -/
  Round : F → F
  /-- the conversion `int(x)`: the fraction is discarded -/
  toInt : F → Int

/-- Exact arithmetic on the rationals, without rounding error, infinities
or NaN (`x / 0` is 0): not the arithmetic of the runtime, which is
`Float64.ieee` below, but an instance at which the properties that hold for
any operations are evaluated. -/
def Float64.exact : Float64 ℚ where
  ofInt n := (n : ℚ)
  lt a b := decide (a < b)
  eq a b := decide (a = b)
  add a b := a + b
  sub a b := a - b
  mul a b := a * b
  div a b := a / b
  Round x := if 0 ≤ x then (⌊x + 1 / 2⌋ : ℚ) else -(⌊-x + 1 / 2⌋ : ℚ)
  toInt x := if 0 ≤ x then ⌊x⌋ else -⌊-x⌋

/-! ## IEEE-754 binary64

The `float64` of the Go runtime: round to nearest, ties to even, with
subnormals, overflow to the infinities, and NaN. -/

/-- A `float64` value: finite, an infinity, or NaN. A finite value is given
by the rational it denotes; the operations below return only rationals that
binary64 represents. Zero carries no sign: the renderers never divide by a
zero that could be negative, and `-0` compares, rounds and converts as `0`. -/
inductive F64 where
  | fin (q : ℚ)
  | pinf
  | ninf
  | nan
  deriving DecidableEq

namespace F64

/-- The power `2^e` of an integer exponent. -/
def pow2 (e : Int) : ℚ :=
  if 0 ≤ e then ((2 ^ e.toNat : Nat) : ℚ) else 1 / ((2 ^ (-e).toNat : Nat) : ℚ)

/-- The binary logarithm of `n` rounded down, in at most `fuel` halvings. -/
def log2Fuel : Nat → Nat → Nat
  | 0, _ => 0
  | fuel + 1, n => if n ≥ 2 then log2Fuel fuel (n / 2) + 1 else 0

/-- The binary logarithm of `n` rounded down (0 for 0): `Nat.log2`, by a
recursion that evaluates on large numbers. -/
def log2 (n : Nat) : Nat := log2Fuel n n

/-- The binary exponent of a non-zero rational: `2^(expo q) ≤ |q| < 2^(expo q + 1)`. -/
def expo (q : ℚ) : Int :=
  let k : Int := (log2 q.num.natAbs : Int) - (log2 q.den : Int)
  if pow2 k ≤ |q| then k else k - 1

/-- The unit in the last place of binary64 at `q`: 52 fraction bits, the
exponent no less than -1022 (below it the values are subnormal). -/
def ulp (q : ℚ) : ℚ := pow2 (Max.max (expo q) (-1022) - 52)

/-- The nearest integer, a tie going to the even one. -/
def roundEven (x : ℚ) : Int :=
  let f := ⌊x⌋
  if x - f < 1 / 2 then f
  else if 1 / 2 < x - f then f + 1
  else if f % 2 = 0 then f else f + 1

/-- The nearest multiple of the unit in the last place (ties to even): the
binary64 rounding of `q` while the exponent stays in range. -/
def rndQ (q : ℚ) : ℚ := (roundEven (q / ulp q) : ℚ) * ulp q

/-- The binary64 rounding of an exact result: a rounded magnitude of `2^1024`
or more overflows to an infinity. -/
def round (q : ℚ) : F64 :=
  let r := rndQ q
  if pow2 1024 ≤ |r| then (if 0 < q then pinf else ninf) else fin r

/-- The conversion `float64(n)` of an `int`. -/
def ofInt (n : Int) : F64 := round (n : ℚ)

/-- The negation `-x`. -/
def neg : F64 → F64
  | fin q => fin (-q)
  | pinf => ninf
  | ninf => pinf
  | nan => nan

/-- The sum `a + b`; `+Inf + -Inf` is NaN. -/
def add : F64 → F64 → F64
  | fin a, fin b => round (a + b)
  | fin _, pinf => pinf
  | fin _, ninf => ninf
  | fin _, nan => nan
  | pinf, fin _ => pinf
  | pinf, pinf => pinf
  | pinf, ninf => nan
  | pinf, nan => nan
  | ninf, fin _ => ninf
  | ninf, pinf => nan
  | ninf, ninf => ninf
  | ninf, nan => nan
  | nan, _ => nan

/-- The difference `a - b`. -/
def sub (a b : F64) : F64 := add a (neg b)

/-- The infinity of the given sign. -/
def inf (positive : Bool) : F64 := if positive then pinf else ninf

/-- The product `a * b`; `0 * Inf` is NaN. -/
def mul : F64 → F64 → F64
  | fin a, fin b => round (a * b)
  | fin a, pinf => if a = 0 then nan else inf (decide (0 < a))
  | fin a, ninf => if a = 0 then nan else inf (decide (a < 0))
  | fin _, nan => nan
  | pinf, fin b => if b = 0 then nan else inf (decide (0 < b))
  | pinf, pinf => pinf
  | pinf, ninf => ninf
  | pinf, nan => nan
  | ninf, fin b => if b = 0 then nan else inf (decide (b < 0))
  | ninf, pinf => ninf
  | ninf, ninf => pinf
  | ninf, nan => nan
  | nan, _ => nan

/-- The quotient `a / b`: a non-zero value divided by zero is an infinity,
`0 / 0` and `Inf / Inf` are NaN. -/
def div : F64 → F64 → F64
  | fin a, fin b =>
    if b = 0 then (if a = 0 then nan else inf (decide (0 < a))) else round (a / b)
  | fin _, pinf => fin 0
  | fin _, ninf => fin 0
  | fin _, nan => nan
  | pinf, fin b => inf (decide (0 ≤ b))
  | pinf, pinf => nan
  | pinf, ninf => nan
  | pinf, nan => nan
  | ninf, fin b => inf (decide (b < 0))
  | ninf, pinf => nan
  | ninf, ninf => nan
  | ninf, nan => nan
  | nan, _ => nan

/-- The comparison `a < b`; false when an operand is NaN. -/
def lt : F64 → F64 → Bool
  | fin a, fin b => decide (a < b)
  | fin _, pinf => true
  | fin _, ninf => false
  | fin _, nan => false
  | pinf, _ => false
  | ninf, fin _ => true
  | ninf, pinf => true
  | ninf, ninf => false
  | ninf, nan => false
  | nan, _ => false

/-- The comparison `a == b`; false when an operand is NaN. -/
def eq : F64 → F64 → Bool
  | fin a, fin b => decide (a = b)
  | pinf, pinf => true
  | ninf, ninf => true
  | _, _ => false

/-- Go `math.Round`: the nearest integer, halves away from zero; an infinity
and NaN are returned unchanged. -/
def Round : F64 → F64
  | fin q => fin (if 0 ≤ q then (⌊q + 1 / 2⌋ : ℚ) else -(⌊-q + 1 / 2⌋ : ℚ))
  | pinf => pinf
  | ninf => ninf
  | nan => nan

/-- The conversion `int(x)`: the fraction is discarded; for NaN, an infinity
and a value outside the range of `int` the result is the one of amd64,
`-9223372036854775808`. -/
def toInt : F64 → Int
  | fin q =>
    let z : Int := if 0 ≤ q then ⌊q⌋ else -⌊-q⌋
    if -9223372036854775808 ≤ z ∧ z < 9223372036854775808 then z else -9223372036854775808
  | pinf => -9223372036854775808
  | ninf => -9223372036854775808
  | nan => -9223372036854775808

end F64

/-- The `float64` arithmetic of the Go runtime (IEEE-754 binary64). -/
def Float64.ieee : Float64 F64 where
  ofInt := F64.ofInt
  lt := F64.lt
  eq := F64.eq
  add := F64.add
  sub := F64.sub
  mul := F64.mul
  div := F64.div
  Round := F64.Round
  toInt := F64.toInt

/-- The comparison `a <= b` of two `float64`; false when an operand is NaN. -/
def F64.le (a b : F64) : Bool := F64.lt a b || F64.eq a b

namespace graph

/-! ## graph/options.go -/

structure BarGraphOptions where
  Width : Int
  BarCharacter : Str
  AxisCharacter : Str
  deriving DecidableEq, Repr

def DefaultBarGraphOptions : BarGraphOptions :=
  { Width := 60, BarCharacter := ['█'], AxisCharacter := ['─'] }

structure LineGraphOptions where
  Width : Int
  Height : Int
  AxisCharacter : Str
  PointCharacter : Str
  deriving DecidableEq, Repr

def DefaultLineGraphOptions : LineGraphOptions :=
  { Width := 60, Height := 10, AxisCharacter := ['─'], PointCharacter := ['*'] }

/-! ## graph/bar.go -/

structure BarGraph (F : Type) where
  data : List F
  labels : List Str
  options : BarGraphOptions

def NewBarGraph (F : Type) : BarGraph F :=
  { data := [], labels := [], options := DefaultBarGraphOptions }

def BarGraph.SetData {F : Type} (bg : BarGraph F) (data : List F) : BarGraph F :=
  { bg with data := data }

def BarGraph.SetLabels {F : Type} (bg : BarGraph F) (labels : List Str) : BarGraph F :=
  { bg with labels := labels }

def BarGraph.SetOptions {F : Type} (bg : BarGraph F) (options : BarGraphOptions) :
    BarGraph F :=
  { bg with options := options }

/-- The `maxValue` of `BarGraph.Render`: the running maximum from `0.0`,
replaced by 1 when it is 0. -/
def BarGraph.maxValue {F : Type} (fl : Float64 F) (bg : BarGraph F) : F :=
  let maxValue :=
    bg.data.foldl (fun maxValue val => if fl.lt maxValue val then val else maxValue)
      (fl.ofInt 0)
  if fl.eq maxValue (fl.ofInt 0) then fl.ofInt 1 else maxValue

/-- The `barHeightScale` of `BarGraph.Render`. -/
def BarGraph.barHeightScale {F : Type} (fl : Float64 F) (bg : BarGraph F) : F :=
  fl.div (fl.ofInt 10) (bg.maxValue fl)

/-- The `barHeight` of one value: `int(math.Round(value * barHeightScale))`. -/
def BarGraph.barHeight {F : Type} (fl : Float64 F) (bg : BarGraph F) (value : F) : Int :=
  fl.toInt (fl.Round (fl.mul value (bg.barHeightScale fl)))

/-- The `line` built by the inner loop of `BarGraph.Render` for row `i`. -/
def BarGraph.barLine {F : Type} (fl : Float64 F) (bg : BarGraph F) (i : Int) : Str :=
  bg.data.enum.foldl
    (fun line bv =>
      let line :=
        if bg.barHeight fl bv.2 ≥ i then line ++ bg.options.BarCharacter else line ++ [' ']
      if (bv.1 : Int) < (bg.data.length : Int) - 1 then line ++ [' '] else line)
    []

/-- The `labelLine` of `BarGraph.Render`. -/
def BarGraph.labelLine {F : Type} (bg : BarGraph F) : Str :=
  bg.labels.enum.foldl
    (fun labelLine il =>
      let labelLine := labelLine ++ il.2
      if (il.1 : Int) < (bg.labels.length : Int) - 1 then labelLine ++ [' '] else labelLine)
    []

/-- Go `BarGraph.Render`. -/
def BarGraph.Render {F ε : Type} (fl : Float64 F) (bg : BarGraph F) : Act ε :=
  if bg.data.length = 0 then Act.skip
  else
    let graphWidth := bg.options.Width
    -- bars, from top to bottom
    Act.seq
      (Act.forRange ([10, 9, 8, 7, 6, 5, 4, 3, 2, 1, 0] : List Int) fun _ i =>
        Act.write (bg.barLine fl i ++ ['\n'])) <|
    -- X-axis
    Act.seq
      (Act.writeOpt
        ((strings.Repeat bg.options.AxisCharacter graphWidth).map
          fun axisLine => axisLine ++ ['\n'])) <|
    -- labels
    Act.when (bg.labels.length = bg.data.length) (Act.write (bg.labelLine ++ ['\n']))

/-! ## graph/line.go -/

/-- Go `func min(a, b int) int`. -/
def min (a b : Int) : Int := if a < b then a else b

/-- Go `func max(a, b int) int`. -/
def max (a b : Int) : Int := if a > b then a else b

structure LineGraph (F : Type) where
  data : List F
  labels : List Str
  options : LineGraphOptions

def NewLineGraph (F : Type) : LineGraph F :=
  { data := [], labels := [], options := DefaultLineGraphOptions }

def LineGraph.SetData {F : Type} (lg : LineGraph F) (data : List F) : LineGraph F :=
  { lg with data := data }

def LineGraph.SetLabels {F : Type} (lg : LineGraph F) (labels : List Str) : LineGraph F :=
  { lg with labels := labels }

def LineGraph.SetOptions {F : Type} (lg : LineGraph F) (options : LineGraphOptions) :
    LineGraph F :=
  { lg with options := options }

/-- The canvas `graphGrid [][]rune`. -/
abbrev Grid := List (List Char)

/-- The conversion and index `[]rune(s)[0]`; it panics on the empty string. -/
def firstRune (s : Str) : Option Char := s.head?

/-- The assignment `graphGrid[y][x] = c`; it panics when an index is out of
range. -/
def Grid.set (grid : Grid) (y x : Int) (c : Char) : Option Grid :=
  if y < 0 ∨ x < 0 then none
  else
    match grid[y.toNat]? with
    | none => none
    | some row =>
      if x.toNat < row.length then some (List.set grid y.toNat (List.set row x.toNat c))
      else none

/-- The integers `lo, lo+1, ..., hi-1` of a loop `for x := lo; x < hi; x++`. -/
def intRange (lo hi : Int) : List Int :=
  (List.range (hi - lo).toNat).map fun k => lo + (k : Int)

/-- The pair (`maxValue`, `minValue`) after the first loop of
`LineGraph.Render`, both starting at `first`. -/
def LineGraph.maxMin {F : Type} (fl : Float64 F) (lg : LineGraph F) (first : F) : F × F :=
  lg.data.foldl
    (fun mm val =>
      let maxValue := if fl.lt mm.1 val then val else mm.1
      let minValue := if fl.lt val mm.2 then val else mm.2
      (maxValue, minValue))
    (first, first)

/-- The `maxValue` used for scaling: `minValue + 1` when the two are equal. -/
def LineGraph.maxValue {F : Type} (fl : Float64 F) (lg : LineGraph F) (first : F) : F :=
  let mm := lg.maxMin fl first
  if fl.eq mm.1 mm.2 then fl.add mm.2 (fl.ofInt 1) else mm.1

/-- The `minValue` of `LineGraph.Render`. -/
def LineGraph.minValue {F : Type} (fl : Float64 F) (lg : LineGraph F) (first : F) : F :=
  (lg.maxMin fl first).2

/-- The `yScale` of `LineGraph.Render`. -/
def LineGraph.yScale {F : Type} (fl : Float64 F) (lg : LineGraph F) (first : F) : F :=
  fl.div (fl.ofInt (lg.options.Height - 1)) (fl.sub (lg.maxValue fl first) (lg.minValue fl first))

/-- The row `yValue` of a value, clamped to `[0, graphHeight-1]`. -/
def LineGraph.yValue {F : Type} (fl : Float64 F) (lg : LineGraph F) (first value : F) : Int :=
  let yValue := fl.toInt (fl.Round (fl.mul (fl.sub (lg.maxValue fl first) value) (lg.yScale fl first)))
  let yValue := if yValue < 0 then 0 else yValue
  if yValue ≥ lg.options.Height then lg.options.Height - 1 else yValue

/-- The column `xPos` of the point of index `xIndex`. -/
def LineGraph.xPos {F : Type} (fl : Float64 F) (lg : LineGraph F) (xIndex : Nat) : Int :=
  fl.toInt
    (fl.mul (fl.div (fl.ofInt xIndex) (fl.ofInt ((lg.data.length : Int) - 1)))
      (fl.ofInt (lg.options.Width - 1)))

/-- The initial canvas: `graphHeight` rows of `graphWidth` spaces; `make`
panics on a negative size. -/
def LineGraph.emptyGrid {F : Type} (lg : LineGraph F) : Option Grid :=
  let graphWidth := lg.options.Width
  let graphHeight := lg.options.Height
  if graphHeight < 0 then none
  else if graphHeight > 0 ∧ graphWidth < 0 then none
  else some (List.replicate graphHeight.toNat (List.replicate graphWidth.toNat ' '))

/-- The connecting loop
`for x := min(prevX, xPos) + 1; x < max(prevX, xPos); x++ { graphGrid[prevY][x] = axis }`. -/
def LineGraph.connect {F : Type} (lg : LineGraph F) (grid : Grid) (prevX prevY xPos : Int) :
    Option Grid :=
  (intRange (graph.min prevX xPos + 1) (graph.max prevX xPos)).foldl
    (fun grid x =>
      match grid, firstRune lg.options.AxisCharacter with
      | some grid, some c => Grid.set grid prevY x c
      | _, _ => none)
    (some grid)

/-- One iteration of the plotting loop on the state (grid, prevX, prevY). -/
def LineGraph.plotStep {F : Type} (fl : Float64 F) (lg : LineGraph F) (first : F)
    (st : Grid × Int × Int) (xIndex : Nat) (value : F) : Option (Grid × Int × Int) :=
  let prevX := st.2.1
  let prevY := st.2.2
  let yValue := lg.yValue fl first value
  let xPos := lg.xPos fl xIndex
  match firstRune lg.options.PointCharacter with
  | none => none
  | some point =>
    match Grid.set st.1 yValue xPos point with
    | none => none
    | some grid =>
      if prevX ≠ -1 then
        (lg.connect grid prevX prevY xPos).map fun grid => (grid, xPos, yValue)
      else some (grid, xPos, yValue)

/-- The plotting loop: the canvas just before the axes are drawn. -/
def LineGraph.plot {F : Type} (fl : Float64 F) (lg : LineGraph F) (first : F) (grid : Grid) :
    Option Grid :=
  (lg.data.enum.foldl
    (fun st iv =>
      match st with
      | none => none
      | some st => lg.plotStep fl first st iv.1 iv.2)
    (some (grid, -1, -1))).map fun st => st.1

/-- The axes: the Y axis in column 0, the X axis in the last row, the origin. -/
def LineGraph.drawAxes {F : Type} (lg : LineGraph F) (grid : Grid) : Option Grid :=
  let graphWidth := lg.options.Width
  let graphHeight := lg.options.Height
  let grid :=
    (intRange 0 graphHeight).foldl
      (fun grid i =>
        match grid with
        | none => none
        | some grid => Grid.set grid i 0 '│')
      (some grid)
  let grid :=
    (intRange 0 graphWidth).foldl
      (fun grid j =>
        match grid, firstRune lg.options.AxisCharacter with
        | some grid, some c => Grid.set grid (graphHeight - 1) j c
        | _, _ => none)
      grid
  match grid with
  | none => none
  | some grid => Grid.set grid (graphHeight - 1) 0 '┼'

/-- The canvas `LineGraph.Render` writes out. -/
def LineGraph.canvas {F : Type} (fl : Float64 F) (lg : LineGraph F) (first : F) : Option Grid :=
  match lg.emptyGrid with
  | none => none
  | some grid =>
    match lg.plot fl first grid with
    | none => none
    | some grid => lg.drawAxes grid

/-- The `labelSpacing` of `LineGraph.Render`. -/
def LineGraph.labelSpacing {F : Type} (lg : LineGraph F) : Int :=
  if lg.labels.length > 1 then lg.options.Width.tdiv ((lg.labels.length : Int) - 1) else 0

/-- The `labelLine` of `LineGraph.Render`; `none` when `strings.Repeat`
panics on a negative count. -/
def LineGraph.labelLine {F : Type} (lg : LineGraph F) : Option Str :=
  lg.labels.enum.foldl
    (fun labelLine il =>
      match labelLine with
      | none => none
      | some labelLine =>
        let labelLine := labelLine ++ il.2
        if (il.1 : Int) < (lg.labels.length : Int) - 1 then
          (strings.Repeat [' '] (lg.labelSpacing - utf8.RuneCountInString il.2)).map
            fun fill => labelLine ++ fill
        else some labelLine)
    (some [])

/-- Go `LineGraph.Render`. -/
def LineGraph.Render {F ε : Type} (fl : Float64 F) (lg : LineGraph F) : Act ε :=
  match lg.data with
  | [] => Act.skip
  | first :: _ =>
    match lg.canvas fl first with
    | none => Act.panic
    | some graphGrid =>
      -- the grid
      Act.seq (Act.forRange graphGrid fun _ row => Act.write (row ++ ['\n'])) <|
      -- the labels
      Act.when (lg.labels.length = lg.data.length)
        (Act.writeOpt (lg.labelLine.map fun labelLine => labelLine ++ ['\n']))

end graph

/-! ## Scripts: the writes a renderer attempts -/

namespace Act

variable {ε : Type}

/-- The writes a renderer attempts, in order; `none` stands for an argument
whose computation panics. -/
def runScript : List (Option Str) → Act ε
  | [] => skip
  | none :: _ => panic
  | some b :: rest => seq (write b) (runScript rest)

/-- The writes of a script up to its first panic. -/
def attempted : List (Option Str) → List Str
  | [] => []
  | none :: _ => []
  | some b :: rest => b :: attempted rest

/-- How a script ends when no write fails: `nil`, or a panic. -/
def ending : List (Option Str) → Option (Abort ε)
  | [] => none
  | none :: _ => some Abort.panic
  | some _ :: rest => ending rest

end Act

/-- None of the first `n` writes fails. -/
def Sink.noFailure {ε : Type} (os : List (Option ε)) (n : Nat) : Prop :=
  ∀ j, j < n → ∀ e, os[j]? ≠ some (some e)

/-- The text a sink has received: its writes, concatenated. -/
def Sink.output {ε : Type} (s : Sink ε) : Str := s.written.flatten

namespace table

/-- The script of the border line, when the table is bordered. -/
def Table.borderScript (t : Table) : List (Option Str) :=
  if t.bordered then
    [t.getHorizontalBorderLine t.calculateColumnWidths t.getBorderChars.2.2]
  else []

/-- The argument of the write of header `i`. -/
def Table.headerArg (t : Table) (i : Nat) (header : Str) : Option Str :=
  match t.calculateColumnWidths[i]? with
  | none => none
  | some width =>
    (t.renderCell header width).map fun cellContent => cellContent ++ t.getBorderChars.2.1

/-- The argument of the write of cell `i` of a data row. -/
def Table.cellArg (t : Table) (i : Nat) (cell : Str) : Option Str :=
  if i ≥ t.calculateColumnWidths.length then
    (t.renderCell cell 0).map fun cellContent => cellContent ++ t.getBorderChars.2.1
  else t.headerArg i cell

/-- The script of one header or data line, given the arguments of its cell
writes. -/
def Table.lineScript (t : Table) (args : List (Option Str)) : List (Option Str) :=
  (if t.bordered then [some t.getBorderChars.2.1] else []) ++ args ++ [some ['\n']]
    ++ t.borderScript

/-- The script of `Table.Render`. -/
def Table.script (t : Table) : List (Option Str) :=
  t.borderScript
    ++ (match t.headers with
        | none => []
        | some hs => t.lineScript (hs.enum.map fun p => t.headerArg p.1 p.2))
    ++ (t.data.map fun row => t.lineScript (row.enum.map fun p => t.cellArg p.1 p.2)).flatten
    ++ (if t.bordered ∧ (t.data.length > 0 ∨ t.headers ≠ none) then
          [t.getHorizontalBorderLine t.calculateColumnWidths t.getBorderChars.2.2]
        else [])

end table

namespace graph

/-- The script of `BarGraph.Render`. -/
def BarGraph.script {F : Type} (fl : Float64 F) (bg : BarGraph F) : List (Option Str) :=
  if bg.data.length = 0 then []
  else
    (([10, 9, 8, 7, 6, 5, 4, 3, 2, 1, 0] : List Int).map fun i =>
        some (bg.barLine fl i ++ ['\n']))
      ++ [(strings.Repeat bg.options.AxisCharacter bg.options.Width).map
            fun axisLine => axisLine ++ ['\n']]
      ++ (if bg.labels.length = bg.data.length then [some (bg.labelLine ++ ['\n'])] else [])

/-- The script of `LineGraph.Render`. -/
def LineGraph.script {F : Type} (fl : Float64 F) (lg : LineGraph F) : List (Option Str) :=
  match lg.data with
  | [] => []
  | first :: _ =>
    match lg.canvas fl first with
    | none => [none]
    | some graphGrid =>
      (graphGrid.map fun row => some (row ++ ['\n']))
        ++ (if lg.labels.length = lg.data.length then
              [lg.labelLine.map fun labelLine => labelLine ++ ['\n']]
            else [])

end graph

namespace table

/-- The rows of a table: the header row when headers are set, then the data
rows. -/
def Table.rows (t : Table) : List (List Str) :=
  (match t.headers with
   | some hs => [hs]
   | none => []) ++ t.data

/-- No width of the table overflows `int`: the padding is not negative and
the rune count of every header and cell plus twice the padding is at most the
largest `int`. -/
@[reducible] def Table.Fits (t : Table) : Prop :=
  0 ≤ t.options.Padding ∧
  ∀ row ∈ t.rows, ∀ c ∈ row, utf8.RuneCountInString c + 2 * t.options.Padding ≤ Go.maxInt

/-- The cells of column `i`: header `i` when headers are set, and cell `i`
of every data row that has one. -/
def Table.column (t : Table) (i : Nat) : List Str :=
  (match t.headers with
   | some hs => hs[i]?.toList
   | none => []) ++ t.data.filterMap fun row => row[i]?

end table

namespace table

/-- How the leftover `k` is split into spaces before and after the cell:
all after for left alignment, all before for right alignment, `k / 2` before
and the rest after for centering. -/
def Table.split (t : Table) (k : Nat) : Nat × Nat :=
  if t.options.Alignment = AlignCenter then (k / 2, k - k / 2)
  else if t.options.Alignment = AlignRight then (k, 0)
  else (0, k)

/-- The text of a rendered cell: what `renderCell` returns (nothing when it
panics). -/
def Table.cellText (t : Table) (cell : Str) (width : Int) : Str :=
  (t.renderCell cell width).getD []

end table

namespace table

end table

namespace table

/-- The table of the specification's scenario: headers A and BB, one row x
and yy, padding 1, single border, left alignment. -/
def Table.scenario : Table :=
  { headers := some [['A'], ['B', 'B']],
    data := [[['x'], ['y', 'y']]],
    options := DefaultOptions }

/-- A table with headers set to an empty list and no data rows. -/
def Table.emptyHeaders : Table :=
  { headers := some [], data := [], options := DefaultOptions }

/-- The table of the header A with the padding `2^62`, twice which is not
an `int`. -/
def Table.hugePadding : Table :=
  { headers := some [['A']], data := [],
    options := { BorderStyle := BorderSingle, Alignment := AlignLeft,
                 Padding := 4611686018427387904 } }

end table
/-! ## Graphs: the terms of the specification -/

/-- Rounding to the nearest integer, halves away from zero. -/
def roundHalfAway (x : ℚ) : Int :=
  if 0 ≤ x then ⌊x + 1 / 2⌋ else -⌊-x + 1 / 2⌋

namespace graph

/-- The bar graph of the specification's scenario: the series 0, 5, 10 with
the default options. -/
def BarGraph.scenario : BarGraph ℚ :=
  { data := [0, 5, 10], labels := [], options := DefaultBarGraphOptions }

end graph

/-! ## Further terms of the specification -/

namespace table

end table

/-- Exact arithmetic with one more value, `none`, for a result that is not
a number: the result of a division by zero (NaN for 0/0; an infinity, which
this model does not tell apart, for another numerator) and of an operation on
`none`. A comparison with `none` is false, and its conversion to `int` is
-2^63, what the conversion instruction of an amd64 processor gives for NaN
and for the infinities (the Go specification leaves the value to the
implementation). -/
def Float64.withNaN : Float64 (Option ℚ) where
  ofInt n := some (n : ℚ)
  lt a b :=
    match a, b with
    | some x, some y => decide (x < y)
    | _, _ => false
  eq a b :=
    match a, b with
    | some x, some y => decide (x = y)
    | _, _ => false
  add a b :=
    match a, b with
    | some x, some y => some (x + y)
    | _, _ => none
  sub a b :=
    match a, b with
    | some x, some y => some (x - y)
    | _, _ => none
  mul a b :=
    match a, b with
    | some x, some y => some (x * y)
    | _, _ => none
  div a b :=
    match a, b with
    | some x, some y => if y = 0 then none else some (x / y)
    | _, _ => none
  Round a := a.map Float64.exact.Round
  toInt a :=
    match a with
    | some x => Float64.exact.toInt x
    | none => -9223372036854775808

namespace graph

/-- A bar graph with a negative width: the series 1, width -1. -/
def BarGraph.negativeWidth : BarGraph ℚ :=
  { data := [1], labels := [],
    options := { Width := -1, BarCharacter := ['█'], AxisCharacter := ['─'] } }

/-- A line graph with a negative height: the series 1, 2, width 60, height -1. -/
def LineGraph.negativeHeight : LineGraph ℚ :=
  { data := [1, 2], labels := [],
    options := { Width := 60, Height := -1, AxisCharacter := ['─'], PointCharacter := ['*'] } }

/-- A line graph with a negative width: the series 1, 2, width -1, height 10. -/
def LineGraph.negativeWidth : LineGraph ℚ :=
  { data := [1, 2], labels := [],
    options := { Width := -1, Height := 10, AxisCharacter := ['─'], PointCharacter := ['*'] } }

/-- A line graph with labels longer than their spacing: three values, the
labels January, February, March, width 10 (a spacing of 5), height 3. -/
def LineGraph.longLabels : LineGraph ℚ :=
  { data := [1, 2, 3],
    labels := ["January".toList, "February".toList, "March".toList],
    options := { Width := 10, Height := 3, AxisCharacter := ['─'], PointCharacter := ['*'] } }

/-- A line graph with a single value, 5, and the default options, over the
arithmetic with NaN. -/
def LineGraph.single : LineGraph (Option ℚ) :=
  { data := [some 5], labels := [], options := DefaultLineGraphOptions }

end graph

namespace graph

/-- The row in which `LineGraph.Render` plots point `i` (0 without such a
point). -/
def LineGraph.pointRow {F : Type} (fl : Float64 F) (lg : LineGraph F) (i : Nat) : Int :=
  match lg.data, lg.data[i]? with
  | first :: _, some v => lg.yValue fl first v
  | _, _ => 0

end graph

namespace graph

end graph

namespace graph

/-- The step of the label loop of `LineGraph.Render`. -/
def LineGraph.labelStep {F : Type} (lg : LineGraph F) (labelLine : Option Str)
    (il : Nat × Str) : Option Str :=
  match labelLine with
  | none => none
  | some labelLine =>
    let labelLine := labelLine ++ il.2
    if (il.1 : Int) < (lg.labels.length : Int) - 1 then
      (strings.Repeat [' '] (lg.labelSpacing - utf8.RuneCountInString il.2)).map
        fun fill => labelLine ++ fill
    else some labelLine

/-- A label as the label line holds it: followed by spaces up to the
spacing when it is not the last one. -/
def LineGraph.paddedLabel {F : Type} (lg : LineGraph F) (il : Nat × Str) : Str :=
  if (il.1 : Int) < (lg.labels.length : Int) - 1 then
    il.2 ++ List.replicate (lg.labelSpacing - utf8.RuneCountInString il.2).toNat ' '
  else il.2

end graph


/-! ## Graphs over float64: the series of the examples -/

namespace graph

/-- The bar graph of the specification's scenario in float64: the series
0, 5, 10 with the default options. -/
def BarGraph.scenario64 : BarGraph F64 :=
  { data := [F64.fin 0, F64.fin 5, F64.fin 10], labels := [],
    options := DefaultBarGraphOptions }

/-- A bar graph whose only value is `2^-1030`, a positive float64 so small
that `10 / 2^-1030` overflows. -/
def BarGraph.tiny : BarGraph F64 :=
  { data := [F64.fin (F64.pow2 (-1030))], labels := [], options := DefaultBarGraphOptions }

/-- A bar graph all of whose values are negative: the series -5, -2 with
the default options. -/
def BarGraph.negatives : BarGraph F64 :=
  { data := [F64.fin (-5), F64.fin (-2)], labels := [], options := DefaultBarGraphOptions }

/-- A line graph of three values on a canvas of width 4 and height 3: the
middle point is at 1/2 of the width. -/
def LineGraph.threePoints : LineGraph F64 :=
  { data := [F64.fin 1, F64.fin 3, F64.fin 2], labels := [],
    options := { Width := 4, Height := 3, AxisCharacter := ['─'], PointCharacter := ['*'] } }

/-- A line graph whose middle value is halfway between the other two: the
values 0, 47, 94 on a canvas of the default width and height 4. -/
def LineGraph.halfway : LineGraph F64 :=
  { data := [F64.fin 0, F64.fin 47, F64.fin 94], labels := [],
    options := { Width := 60, Height := 4, AxisCharacter := ['─'], PointCharacter := ['*'] } }

/-- A line graph of two equal values so large that adding 1 does not change
them: 10^16, 10^16, with the default options. -/
def LineGraph.absorbed : LineGraph F64 :=
  { data := [F64.fin 10000000000000000, F64.fin 10000000000000000], labels := [],
    options := DefaultLineGraphOptions }

end graph
/-! ## Scripts and sinks -/

namespace Act

variable {ε : Type}

theorem seq_skip_left (a : Act ε) : seq skip a = a := by
  funext s; simp [seq, skip]

theorem seq_skip_right (a : Act ε) : seq a skip = a := by
  funext s
  simp only [seq, skip]
  rcases h : a s with ⟨s', _ | r⟩ <;> simp

theorem seq_panic_left (a : Act ε) : seq panic a = panic := by
  funext s; simp [seq, panic]

theorem seq_assoc (a b c : Act ε) : seq (seq a b) c = seq a (seq b c) := by
  funext s
  simp only [seq]
  rcases h : a s with ⟨s', _ | r⟩ <;> simp

theorem runScript_append (xs ys : List (Option Str)) :
    seq (runScript xs) (runScript ys) = (runScript (xs ++ ys) : Act ε) := by
  induction xs with
  | nil => simp [runScript, seq_skip_left]
  | cons x xs ih =>
    cases x with
    | none => simp [runScript, seq_panic_left]
    | some b => simp [runScript, seq_assoc, ih]

theorem write_eq_runScript (b : Str) : (write b : Act ε) = runScript [some b] := by
  simp [runScript, seq_skip_right]

theorem writeOpt_eq_runScript (o : Option Str) : (writeOpt o : Act ε) = runScript [o] := by
  cases o with
  | none => simp [writeOpt, runScript]
  | some b => simp [writeOpt, runScript, seq_skip_right]

theorem skip_eq_runScript : (skip : Act ε) = runScript [] := rfl

theorem panic_eq_runScript : (panic : Act ε) = runScript [none] := rfl

theorem when_runScript (c : Bool) (xs : List (Option Str)) :
    when c (runScript xs) = (runScript (if c then xs else []) : Act ε) := by
  cases c <;> simp [when, runScript]

theorem forRangeFrom_runScript {α : Type} (body : Nat → α → Act ε)
    (f : Nat → α → List (Option Str)) (h : ∀ i x, body i x = runScript (f i x))
    (i : Nat) (xs : List α) :
    forRangeFrom body i xs
      = runScript (((xs.enumFrom i).map fun p => f p.1 p.2).flatten) := by
  induction xs generalizing i with
  | nil => simp [forRangeFrom, runScript]
  | cons x xs ih =>
    simp [forRangeFrom, List.enumFrom, h, ih, runScript_append]

theorem forRange_runScript {α : Type} (body : Nat → α → Act ε)
    (f : Nat → α → List (Option Str)) (h : ∀ i x, body i x = runScript (f i x))
    (xs : List α) :
    forRange xs body = runScript ((xs.enum.map fun p => f p.1 p.2).flatten) := by
  simp [forRange, List.enum, forRangeFrom_runScript body f h]

theorem runScript_noFailure (xs : List (Option Str)) (s : Sink ε)
    (h : Sink.noFailure s.outcomes (attempted xs).length) :
    runScript xs s
      = ({ outcomes := s.outcomes.drop (attempted xs).length,
           written := s.written ++ attempted xs }, ending xs) := by
  induction xs generalizing s with
  | nil => simp [runScript, skip, attempted, ending]
  | cons x xs ih =>
    cases x with
    | none => simp [runScript, panic, attempted, ending]
    | some b =>
      rcases s with ⟨os, w⟩
      cases os with
      | nil =>
        have := ih ⟨[], w ++ [b]⟩ (by intro j _ e; simp)
        simp [runScript, seq, write, attempted, ending, this]
      | cons o os =>
        have ho : o = none := by
          cases o with
          | none => rfl
          | some e => exact absurd (by simp) (h 0 (by simp [attempted]) e)
        subst ho
        have := ih ⟨os, w ++ [b]⟩ (by
          intro j hj e
          have := h (j + 1) (by simpa [attempted] using hj) e
          simpa using this)
        simp [runScript, seq, write, attempted, ending, this]

theorem runScript_reliable (xs : List (Option Str)) :
    runScript xs (Sink.reliable ε)
      = ({ outcomes := [], written := attempted xs }, ending xs) := by
  have := runScript_noFailure xs (Sink.reliable ε) (by intro j _ e; simp [Sink.reliable])
  simpa [Sink.reliable] using this

end Act

/-! ## Column widths -/

theorem Go.wrap_of_range (x : Int) (h1 : Go.minInt ≤ x) (h2 : x ≤ Go.maxInt) :
    Go.wrap x = x := by
  unfold Go.wrap
  unfold Go.minInt at h1
  unfold Go.maxInt at h2
  omega

theorem Go.wrap_range (x : Int) : Go.minInt ≤ Go.wrap x ∧ Go.wrap x ≤ Go.maxInt := by
  unfold Go.wrap Go.minInt Go.maxInt
  omega

namespace table

theorem Table.headerWidths_length (t : Table) (widths : List Int) (hs : List Str) :
    (t.headerWidths widths hs).length = widths.length := by
  unfold Table.headerWidths
  generalize hs.enum = l
  induction l generalizing widths with
  | nil => rfl
  | cons x l ih => simp [List.foldl_cons, ih]

theorem Table.headerWidths_getElem? (t : Table) (widths : List Int) (hs : List Str)
    (hlen : hs.length ≤ widths.length) (j : Nat) :
    (t.headerWidths widths hs)[j]?
      = match hs[j]? with
        | some h => some (t.cellWidth h)
        | none => widths[j]? := by
  induction hs using List.reverseRecOn with
  | nil => simp [Table.headerWidths]
  | append_singleton hs h ih =>
    have hlen1 : hs.length < widths.length := by simp at hlen; omega
    have ih := ih (by omega)
    have hstep : t.headerWidths widths (hs ++ [h])
        = (t.headerWidths widths hs).set hs.length
            (t.cellWidth h) := by
      simp [Table.headerWidths, List.enum_append, List.foldl_append, List.enumFrom]
    rw [hstep, List.getElem?_set, Table.headerWidths_length]
    by_cases hj : hs.length = j
    · subst hj
      simp [hlen1]
    · rw [if_neg hj, ih]
      rcases Nat.lt_or_gt_of_ne hj with h1 | h1
      · have : (hs ++ [h])[j]? = none := by
          apply List.getElem?_eq_none; simp; omega
        have h2 : hs[j]? = none := List.getElem?_eq_none (by omega)
        rw [this, h2]
      · rw [List.getElem?_append_left h1]

theorem Table.rowWidths_length (t : Table) (numCols : Nat) (widths : List Int)
    (row : List Str) : (t.rowWidths numCols widths row).length = widths.length := by
  unfold Table.rowWidths
  generalize row.enum = l
  induction l generalizing widths with
  | nil => rfl
  | cons x l ih =>
    simp only [List.foldl_cons]
    rw [ih]
    split
    · rfl
    · split <;> simp

theorem Table.rowWidths_getElem? (t : Table) (numCols : Nat) (widths : List Int)
    (row : List Str) (hlen : numCols ≤ widths.length) (j : Nat) :
    (t.rowWidths numCols widths row)[j]?
      = match row[j]?, widths[j]? with
        | some c, some w =>
          if j < numCols then
            some (Max.max w (t.cellWidth c))
          else some w
        | _, o => o := by
  induction row using List.reverseRecOn with
  | nil => simp [Table.rowWidths]
  | append_singleton row c ih =>
    have hstep : t.rowWidths numCols widths (row ++ [c])
        = (fun ws : List Int =>
            if row.length ≥ numCols then ws
            else if t.cellWidth c > ws.getD row.length 0
              then ws.set row.length (t.cellWidth c)
              else ws) (t.rowWidths numCols widths row) := by
      simp [Table.rowWidths, List.enum_append, List.foldl_append, List.enumFrom]
    rw [hstep]
    by_cases hj : row.length = j
    · subst hj
      have hnone : row[row.length]? = none := List.getElem?_eq_none (le_refl _)
      have hprev := ih
      rw [hnone] at hprev
      simp only [List.getElem?_concat_length]
      by_cases hc : row.length ≥ numCols
      · have : ¬ row.length < numCols := by omega
        simp only [hc, if_true, this, if_false]
        rw [hprev]
        cases widths[row.length]? <;> rfl
      · have hlt : row.length < numCols := by omega
        have hw : row.length < widths.length := by omega
        obtain ⟨w, hwv⟩ : ∃ w, widths[row.length]? = some w :=
          ⟨widths[row.length], List.getElem?_eq_getElem hw⟩
        simp only [hc, if_false, hlt, if_true, hwv]
        have hD : (t.rowWidths numCols widths row).getD row.length 0 = w := by
          rw [List.getD_eq_getElem?_getD, hprev, hwv]; rfl
        rw [hD]
        by_cases hgt : t.cellWidth c > w
        · simp only [hgt, if_true, List.getElem?_set, Table.rowWidths_length, hw]
          simp [max_eq_right (le_of_lt hgt)]
        · simp only [hgt, if_false]
          rw [hprev, hwv]
          simp [max_eq_left (not_lt.mp hgt)]
    · have hunch : ((fun ws : List Int =>
            if row.length ≥ numCols then ws
            else if t.cellWidth c > ws.getD row.length 0
              then ws.set row.length (t.cellWidth c)
              else ws) (t.rowWidths numCols widths row))[j]?
          = (t.rowWidths numCols widths row)[j]? := by
        dsimp only
        split
        · rfl
        · split
          · rw [List.getElem?_set, if_neg hj]
          · rfl
      rw [hunch, ih]
      rcases Nat.lt_or_gt_of_ne hj with h1 | h1
      · have : (row ++ [c])[j]? = none := by
          apply List.getElem?_eq_none; simp; omega
        have h2 : row[j]? = none := List.getElem?_eq_none (by omega)
        rw [this, h2]
      · rw [List.getElem?_append_left h1]

end table

namespace table

theorem Table.foldl_rowWidths_length (t : Table) (numCols : Nat) (rows : List (List Str))
    (widths : List Int) :
    (rows.foldl (t.rowWidths numCols) widths).length = widths.length := by
  induction rows generalizing widths with
  | nil => rfl
  | cons row rows ih => simp [List.foldl_cons, ih, Table.rowWidths_length]

/-- The data loop, column by column: the final width of a column is at
least its initial width and the padded length of each of its cells, and it is
one of these. -/
theorem Table.foldl_rowWidths_spec (t : Table) (numCols : Nat) (rows : List (List Str))
    (widths : List Int) (hlen : numCols ≤ widths.length) (j : Nat) (hj : j < numCols)
    (w0 : Int) (hw0 : widths[j]? = some w0) :
    ∃ w, (rows.foldl (t.rowWidths numCols) widths)[j]? = some w ∧ w0 ≤ w ∧
      (∀ row ∈ rows, ∀ c, row[j]? = some c →
        t.cellWidth c ≤ w) ∧
      (w = w0 ∨ ∃ row ∈ rows, ∃ c, row[j]? = some c ∧
        w = t.cellWidth c) := by
  induction rows generalizing widths w0 with
  | nil => exact ⟨w0, by simpa using hw0, le_refl _, by simp, Or.inl rfl⟩
  | cons row rows ih =>
    have hstep := Table.rowWidths_getElem? t numCols widths row hlen j
    rw [hw0] at hstep
    simp only [List.foldl_cons]
    cases hc : row[j]? with
    | none =>
      rw [hc] at hstep
      obtain ⟨w, h1, h2, h3, h4⟩ := ih (t.rowWidths numCols widths row)
        (by rw [Table.rowWidths_length]; exact hlen) w0 hstep
      refine ⟨w, h1, h2, ?_, ?_⟩
      · intro r hr c hrc
        rcases List.mem_cons.mp hr with rfl | hr
        · rw [hc] at hrc; cases hrc
        · exact h3 r hr c hrc
      · rcases h4 with h4 | ⟨r, hr, c, hrc, hw⟩
        · exact Or.inl h4
        · exact Or.inr ⟨r, List.mem_cons_of_mem _ hr, c, hrc, hw⟩
    | some c =>
      rw [hc] at hstep
      simp only [hj, if_true] at hstep
      obtain ⟨w, h1, h2, h3, h4⟩ := ih (t.rowWidths numCols widths row)
        (by rw [Table.rowWidths_length]; exact hlen) _ hstep
      refine ⟨w, h1, le_trans (le_max_left _ _) h2, ?_, ?_⟩
      · intro r hr c' hrc
        rcases List.mem_cons.mp hr with rfl | hr
        · rw [hc] at hrc
          cases hrc
          exact le_trans (le_max_right _ _) h2
        · exact h3 r hr c' hrc
      · rcases h4 with h4 | ⟨r, hr, c', hrc, hw⟩
        · rcases max_choice w0 (t.cellWidth c) with hm | hm
          · exact Or.inl (by rw [h4, hm])
          · exact Or.inr ⟨row, List.mem_cons_self _ _, c, hc, by rw [h4, hm]⟩
        · exact Or.inr ⟨r, List.mem_cons_of_mem _ hr, c', hrc, hw⟩

theorem Table.calculateColumnWidths_length (t : Table) :
    t.calculateColumnWidths.length = t.numCols := by
  unfold Table.calculateColumnWidths
  by_cases h0 : t.numCols = 0
  · simp [h0]
  · simp only [h0, if_false]
    rw [Table.foldl_rowWidths_length]
    cases t.headers with
    | none => simp
    | some hs => simp [Table.headerWidths_length]

/-- Without overflow the padded width of a cell is its rune count plus
twice the padding. -/
theorem Table.cellWidth_eq (t : Table) (c : Str) (hp : 0 ≤ t.options.Padding)
    (h : utf8.RuneCountInString c + 2 * t.options.Padding ≤ Go.maxInt) :
    t.cellWidth c = utf8.RuneCountInString c + 2 * t.options.Padding := by
  have hnn : (0 : Int) ≤ utf8.RuneCountInString c := by simp [utf8.RuneCountInString]
  unfold Table.cellWidth Go.add Go.mul
  rw [Go.wrap_of_range (t.options.Padding * 2) (by unfold Go.minInt; omega) (by omega)]
  rw [Go.wrap_of_range _ (by unfold Go.minInt; omega) (by omega)]
  ring

theorem Table.mem_rows_of_mem_column (t : Table) (i : Nat) (c : Str) (hc : c ∈ t.column i) :
    ∃ row ∈ t.rows, c ∈ row := by
  simp only [Table.column, List.mem_append, List.mem_filterMap] at hc
  rcases hc with hc | ⟨row, hrow, hrc⟩
  · cases hh : t.headers with
    | none => simp [hh] at hc
    | some hs =>
      simp only [hh, Option.mem_toList, Option.mem_def] at hc
      exact ⟨hs, by simp [Table.rows, hh], List.getElem?_mem hc⟩
  · exact ⟨row, by simp [Table.rows, hrow], List.getElem?_mem hrc⟩

theorem Table.cellWidth_of_fits (t : Table) (hfit : t.Fits) (i : Nat) (c : Str)
    (hc : c ∈ t.column i) :
    t.cellWidth c = utf8.RuneCountInString c + 2 * t.options.Padding := by
  obtain ⟨row, hrow, hcr⟩ := t.mem_rows_of_mem_column i c hc
  exact t.cellWidth_eq c hfit.1 (hfit.2 row hrow c hcr)

/-- Column `i` of the widths, when no width overflows: an upper bound of
the padded lengths of the cells of the column, attained by one of them. -/
theorem Table.calculateColumnWidths_column (t : Table) (hfit : t.Fits)
    (i : Nat) (hi : i < t.numCols) :
    ∃ w, t.calculateColumnWidths[i]? = some w ∧
      (∀ c ∈ t.column i, utf8.RuneCountInString c + 2 * t.options.Padding ≤ w) ∧
      (∃ c ∈ t.column i, w = 2 * t.options.Padding + utf8.RuneCountInString c) := by
  have hp := hfit.1
  have h0 : t.numCols ≠ 0 := by omega
  unfold Table.calculateColumnWidths
  simp only [h0, if_false]
  cases hh : t.headers with
  | some hs =>
    have hn : t.numCols = hs.length := by simp [Table.numCols, hh]
    have hih : i < hs.length := by omega
    have hinit := Table.headerWidths_getElem? t (List.replicate t.numCols 0) hs
      (by simp [hn]) i
    rw [List.getElem?_eq_getElem hih] at hinit
    obtain ⟨w, h1, h2, h3, h4⟩ := Table.foldl_rowWidths_spec t t.numCols t.data
      (t.headerWidths (List.replicate t.numCols 0) hs)
      (by simp [Table.headerWidths_length]) i hi _ hinit
    have hhead : hs[i] ∈ t.column i := by
      simp [Table.column, hh, List.getElem?_eq_getElem hih]
    refine ⟨w, h1, ?_, ?_⟩
    · intro c hc
      have hcw := t.cellWidth_of_fits hfit i c hc
      simp only [Table.column, hh, List.mem_append, List.mem_filterMap] at hc
      rcases hc with hc | ⟨row, hrow, hrc⟩
      · rw [List.getElem?_eq_getElem hih] at hc
        simp at hc
        subst hc
        linarith
      · have := h3 row hrow c hrc
        linarith
    · rcases h4 with h4 | ⟨row, hrow, c, hrc, hw⟩
      · refine ⟨hs[i], hhead, ?_⟩
        rw [h4, t.cellWidth_of_fits hfit i _ hhead]
        ring
      · have hcm : c ∈ t.column i := by
          simp only [Table.column, hh, List.mem_append, List.mem_filterMap]
          exact Or.inr ⟨row, hrow, hrc⟩
        refine ⟨c, hcm, ?_⟩
        rw [hw, t.cellWidth_of_fits hfit i c hcm]
        ring
  | none =>
    obtain ⟨w, h1, h2, h3, h4⟩ := Table.foldl_rowWidths_spec t t.numCols t.data
      (List.replicate t.numCols 0) (by simp) i hi 0 (by simp [hi])
    -- the first row has a cell `i`
    obtain ⟨row0, rest, hd, hi0⟩ : ∃ row0 rest, t.data = row0 :: rest ∧ i < row0.length := by
      cases hd : t.data with
      | nil => simp [Table.numCols, hh, hd] at hi
      | cons row0 rest =>
        refine ⟨row0, rest, rfl, ?_⟩
        simp only [Table.numCols, hh, hd] at hi
        split at hi <;> omega
    have hmem0 : row0 ∈ t.data := by rw [hd]; exact List.mem_cons_self _ _
    have hc0 : row0[i]? = some row0[i] := List.getElem?_eq_getElem hi0
    have hcol : ∀ row ∈ t.data, ∀ c, row[i]? = some c → c ∈ t.column i := by
      intro row hrow c hrc
      simp only [Table.column, hh, List.nil_append, List.mem_filterMap]
      exact ⟨row, hrow, hrc⟩
    refine ⟨w, h1, ?_, ?_⟩
    · intro c hc
      have hcw := t.cellWidth_of_fits hfit i c hc
      simp only [Table.column, hh, List.nil_append, List.mem_filterMap] at hc
      obtain ⟨row, hrow, hrc⟩ := hc
      have := h3 row hrow c hrc
      linarith
    · rcases h4 with h4 | ⟨row, hrow, c, hrc, hw⟩
      · have hb := h3 row0 hmem0 _ hc0
        have hcw := t.cellWidth_of_fits hfit i _ (hcol row0 hmem0 _ hc0)
        have hnn : (0 : Int) ≤ utf8.RuneCountInString row0[i] := by
          simp [utf8.RuneCountInString]
        refine ⟨row0[i], hcol row0 hmem0 _ hc0, ?_⟩
        rw [h4] at hb ⊢
        linarith
      · refine ⟨c, hcol row hrow c hrc, ?_⟩
        rw [hw, t.cellWidth_of_fits hfit i c (hcol row hrow c hrc)]
        ring

end table
/-! ## Cells -/

theorem strings.Repeat_space (k : Int) (hk : 0 ≤ k) :
    strings.Repeat [' '] k = some (List.replicate k.toNat ' ') := by
  simp [strings.Repeat, not_lt.mpr hk]

theorem strings.Repeat_char (c : Char) (k : Int) (hk : 0 ≤ k) :
    strings.Repeat [c] k = some (List.replicate k.toNat c) := by
  simp [strings.Repeat, not_lt.mpr hk]

namespace table

/-- With a padding that is not negative `renderCell` does not panic, for any
cell and width. -/
theorem Table.renderCell_eq (t : Table) (cell : Str) (width : Int)
    (hp : 0 ≤ t.options.Padding) :
    t.renderCell cell width = some (t.cellText cell width) := by
  have hsome : ∃ s, t.renderCell cell width = some s := by
    unfold Table.renderCell
    rw [strings.Repeat_space _ hp]
    simp only []
    by_cases h1 : t.options.Alignment = AlignCenter
    · simp only [h1, if_true]
      have hps0 : ∀ x : Int, 0 ≤ (if x < 0 then 0 else x) := by
        intro x
        split_ifs with hlt
        · exact le_refl _
        · exact not_lt.mp hlt
      rw [strings.Repeat_space _ (hps0 _)]
      exact ⟨_, rfl⟩
    · simp only [h1, if_false]
      split_ifs <;> exact ⟨_, rfl⟩
  obtain ⟨s, hs⟩ := hsome
  unfold Table.cellText
  rw [hs]
  rfl

end table
/-! ## Table.Render as a script -/

theorem List.flatten_map_singleton {α β : Type} (f : α → β) (l : List α) :
    (l.map fun p => [f p]).flatten = l.map f := by
  induction l with
  | nil => rfl
  | cons x l ih => simp [ih]

theorem List.map_snd_enum {α β : Type} (g : α → β) (l : List α) :
    (l.enum.map fun p => g p.2) = l.map g := by
  have h : (l.enum.map fun p => g p.2) = (l.enum.map Prod.snd).map g := by
    rw [List.map_map]; rfl
  rw [h, List.enum_map_snd]

namespace table

theorem Table.Render_eq_runScript {ε : Type} (t : Table) :
    (t.Render : Act ε) = Act.runScript t.script := by
  have hB : (Act.when t.bordered t.writeBorderLine : Act ε) = Act.runScript t.borderScript := by
    rw [Table.writeBorderLine, Act.writeOpt_eq_runScript, Act.when_runScript]
    rfl
  have hV : (Act.when t.bordered (Act.write t.getBorderChars.2.1) : Act ε)
      = Act.runScript (if t.bordered then [some t.getBorderChars.2.1] else []) := by
    rw [Act.write_eq_runScript, Act.when_runScript]
  have hH : ∀ hs : List Str,
      (Act.forRange hs fun i header =>
        match t.calculateColumnWidths[i]? with
        | none => (Act.panic : Act ε)
        | some width => t.writeCell header width t.getBorderChars.2.1)
      = Act.runScript (hs.enum.map fun p => t.headerArg p.1 p.2) := by
    intro hs
    rw [Act.forRange_runScript _ (fun i header => [t.headerArg i header])]
    · rw [List.flatten_map_singleton (fun p : Nat × Str => t.headerArg p.1 p.2)]
    · intro i x
      simp only [Table.headerArg]
      cases t.calculateColumnWidths[i]? with
      | none => rfl
      | some w => simp [Table.writeCell, Act.writeOpt_eq_runScript]
  have hC : ∀ row : List Str,
      (Act.forRange row fun i cell =>
        if i ≥ t.calculateColumnWidths.length then
          (t.writeCell cell 0 t.getBorderChars.2.1 : Act ε)
        else
          match t.calculateColumnWidths[i]? with
          | none => Act.panic
          | some width => t.writeCell cell width t.getBorderChars.2.1)
      = Act.runScript (row.enum.map fun p => t.cellArg p.1 p.2) := by
    intro row
    rw [Act.forRange_runScript _ (fun i cell => [t.cellArg i cell])]
    · rw [List.flatten_map_singleton (fun p : Nat × Str => t.cellArg p.1 p.2)]
    · intro i x
      simp only [Table.cellArg, Table.headerArg]
      split
      · simp [Table.writeCell, Act.writeOpt_eq_runScript]
      · cases t.calculateColumnWidths[i]? with
        | none => rfl
        | some w => simp [Table.writeCell, Act.writeOpt_eq_runScript]
  have hN : (Act.write ['\n'] : Act ε) = Act.runScript [some ['\n']] :=
    Act.write_eq_runScript _
  have hD : (Act.forRange t.data fun _ row =>
        Act.seq (Act.when t.bordered (Act.write t.getBorderChars.2.1)) <|
        Act.seq
          (Act.forRange row fun i cell =>
            if i ≥ t.calculateColumnWidths.length then
              (t.writeCell cell 0 t.getBorderChars.2.1 : Act ε)
            else
              match t.calculateColumnWidths[i]? with
              | none => Act.panic
              | some width => t.writeCell cell width t.getBorderChars.2.1) <|
        Act.seq (Act.write ['\n']) <|
        Act.when t.bordered t.writeBorderLine)
      = Act.runScript
          (t.data.map fun row =>
            t.lineScript (row.enum.map fun p => t.cellArg p.1 p.2)).flatten := by
    rw [Act.forRange_runScript _
      (fun _ row => t.lineScript (row.enum.map fun p => t.cellArg p.1 p.2))]
    · rw [List.map_snd_enum
        (fun row : List Str => t.lineScript (row.enum.map fun p => t.cellArg p.1 p.2))]
    · intro i row
      rw [hV, hC, hN, hB, Act.runScript_append, Act.runScript_append, Act.runScript_append]
      simp [Table.lineScript]
  have hL : (Act.when (t.bordered ∧ (t.data.length > 0 ∨ t.headers ≠ none))
        t.writeBorderLine : Act ε)
      = Act.runScript
          (if t.bordered ∧ (t.data.length > 0 ∨ t.headers ≠ none) then
            [t.getHorizontalBorderLine t.calculateColumnWidths t.getBorderChars.2.2]
          else []) := by
    rw [Table.writeBorderLine, Act.writeOpt_eq_runScript, Act.when_runScript]
    simp
  unfold Table.Render
  simp only []
  rw [hD, hL, hB]
  cases hh : t.headers with
  | none =>
    simp only [Table.script, hh]
    rw [Act.skip_eq_runScript, Act.runScript_append, Act.runScript_append,
      Act.runScript_append]
    simp
  | some hs =>
    simp only [Table.script, hh]
    rw [hV, hH, hN]
    simp only [Act.runScript_append]
    simp [Table.lineScript]

end table

/-! ## The writes of Table.Render -/

namespace table

theorem Table.cellArg_eq (t : Table) (hp : 0 ≤ t.options.Padding) (i : Nat) (cell : Str) :
    t.cellArg i cell
      = some (t.cellText cell (t.calculateColumnWidths.getD i 0) ++ t.getBorderChars.2.1) := by
  unfold Table.cellArg Table.headerArg
  by_cases hi : i ≥ t.calculateColumnWidths.length
  · rw [if_pos hi, Table.renderCell_eq t _ _ hp]
    have : t.calculateColumnWidths.getD i 0 = 0 := by
      rw [List.getD_eq_getElem?_getD, List.getElem?_eq_none hi]; rfl
    rw [this]; rfl
  · rw [if_neg hi]
    have hi' : i < t.calculateColumnWidths.length := by omega
    rw [List.getD_eq_getElem?_getD, List.getElem?_eq_getElem hi']
    simp only [Option.getD_some]
    rw [Table.renderCell_eq t _ _ hp]; rfl

theorem Table.headerArg_eq (t : Table) (hp : 0 ≤ t.options.Padding) (i : Nat) (cell : Str)
    (hi : i < t.calculateColumnWidths.length) :
    t.headerArg i cell
      = some (t.cellText cell (t.calculateColumnWidths.getD i 0) ++ t.getBorderChars.2.1) := by
  rw [← Table.cellArg_eq t hp, Table.cellArg, if_neg (by omega)]

end table
/-! ## The lengths of the lines of a table -/

namespace table

end table

/-! ## Bordered and borderless tables -/

namespace table

theorem Table.bordered_of_no_columns (t : Table) (hcols : t.numCols = 0) :
    t.bordered = false := by
  simp [Table.bordered, Table.calculateColumnWidths_length, hcols]

end table

namespace table

end table
/-! ## The graph renderers as scripts -/

namespace graph

theorem BarGraph.Render_eq_barScript {F ε : Type} (fl : Float64 F) (bg : BarGraph F) :
    (bg.Render fl : Act ε) = Act.runScript (bg.script fl) := by
  unfold BarGraph.Render BarGraph.script
  split
  · rfl
  · simp only []
    rw [Act.forRange_runScript _ (fun _ i => [some (bg.barLine fl i ++ ['\n'])])
      (fun _ i => Act.write_eq_runScript _)]
    rw [Act.writeOpt_eq_runScript, Act.write_eq_runScript, Act.when_runScript,
      Act.runScript_append, Act.runScript_append]
    rw [List.flatten_map_singleton (fun p : Nat × Int => some (bg.barLine fl p.2 ++ ['\n'])),
      List.map_snd_enum (fun i : Int => some (bg.barLine fl i ++ ['\n']))]
    simp

theorem LineGraph.Render_eq_lineScript {F ε : Type} (fl : Float64 F) (lg : LineGraph F) :
    (lg.Render fl : Act ε) = Act.runScript (lg.script fl) := by
  unfold LineGraph.Render LineGraph.script
  cases lg.data with
  | nil => rfl
  | cons first rest =>
    simp only []
    cases lg.canvas fl first with
    | none => rfl
    | some graphGrid =>
      simp only []
      rw [Act.forRange_runScript _ (fun _ row => [some (row ++ ['\n'])])
        (fun _ row => Act.write_eq_runScript _)]
      rw [Act.writeOpt_eq_runScript, Act.when_runScript, Act.runScript_append]
      rw [List.flatten_map_singleton (fun p : Nat × List Char => some (p.2 ++ ['\n'])),
        List.map_snd_enum (fun row : List Char => some (row ++ ['\n']))]
      simp

end graph

/-! ## The bar graph -/

namespace graph

end graph

namespace graph

end graph

/-! ## A cell longer than the widest width of fmt -/

namespace table

end table
/-! ## Rows of any length -/

namespace table

end table
/-! ## Runs that end in a panic -/

namespace graph

theorem BarGraph.Render_negative_width {F ε : Type} (fl : Float64 F) (bg : BarGraph F)
    (hdata : bg.data ≠ []) (hw : bg.options.Width < 0) :
    bg.Render fl (Sink.reliable ε)
      = ({ outcomes := [],
           written := ([10, 9, 8, 7, 6, 5, 4, 3, 2, 1, 0] : List Int).map fun i =>
              bg.barLine fl i ++ ['\n'] }, some Abort.panic) := by
  have hlen : bg.data.length ≠ 0 := fun h => hdata (List.length_eq_zero.mp h)
  rw [BarGraph.Render_eq_barScript, Act.runScript_reliable]
  simp only [BarGraph.script, if_neg hlen, strings.Repeat, hw, if_true, Option.map_none',
    List.map_cons, List.map_nil, List.cons_append, List.nil_append, Act.attempted, Act.ending]

theorem LineGraph.emptyGrid_negative {F : Type} (lg : LineGraph F)
    (h : lg.options.Height < 0 ∨ (0 < lg.options.Height ∧ lg.options.Width < 0)) :
    lg.emptyGrid = none := by
  unfold LineGraph.emptyGrid
  rcases h with h | ⟨h1, h2⟩
  · simp [h]
  · have : ¬ lg.options.Height < 0 := by omega
    simp [this, h1, h2]

theorem LineGraph.Render_no_grid {F ε : Type} (fl : Float64 F) (lg : LineGraph F)
    (hdata : lg.data ≠ []) (hg : lg.emptyGrid = none) (s : Sink ε) :
    lg.Render fl s = (s, some Abort.panic) := by
  unfold LineGraph.Render
  cases hd : lg.data with
  | nil => exact absurd hd hdata
  | cons first rest =>
    simp only [LineGraph.canvas, hg]
    rfl

theorem LineGraph.labelLine_congr {F G : Type} (lg : LineGraph F) (lg' : LineGraph G)
    (h1 : lg.labels = lg'.labels) (h2 : lg.options = lg'.options) :
    lg.labelLine = lg'.labelLine := by
  simp [LineGraph.labelLine, LineGraph.labelSpacing, h1, h2]

/-- With as many labels as values, a label line that cannot be computed
ends the render in a panic. -/
theorem LineGraph.Render_label_panic {F ε : Type} (fl : Float64 F) (lg : LineGraph F)
    (hdata : lg.data ≠ []) (hlen : lg.labels.length = lg.data.length)
    (hl : lg.labelLine = none) :
    (lg.Render fl (Sink.reliable ε)).2 = some Abort.panic := by
  rw [LineGraph.Render_eq_lineScript, Act.runScript_reliable]
  unfold LineGraph.script
  cases hd : lg.data with
  | nil => exact absurd hd hdata
  | cons first rest =>
    simp only []
    cases lg.canvas fl first with
    | none => rfl
    | some grid =>
      simp only []
      rw [← hd, if_pos hlen, hl]
      have hrows : ∀ (rows : List (List Char)) (tail : List (Option Str)),
          (Act.ending ((rows.map fun row => some (row ++ ['\n'])) ++ tail)
            : Option (Abort ε)) = Act.ending tail := by
        intro rows tail
        induction rows with
        | nil => rfl
        | cons r rs ih => simpa [Act.ending] using ih
      rw [hrows]
      rfl

end graph

/-! ## The canvas -/

namespace graph

end graph

namespace graph

end graph

/-! ## The plotting loop -/

namespace graph

end graph

/-! ## Rows, columns and axes -/

namespace graph

/-- The row of a value lies within a canvas of at least one row, whatever
the float64 operations: it is clamped. -/
theorem LineGraph.yValue_range {F : Type} (fl : Float64 F) (lg : LineGraph F) (first v : F)
    (hH : 1 ≤ lg.options.Height) :
    0 ≤ lg.yValue fl first v ∧ lg.yValue fl first v < lg.options.Height := by
  unfold LineGraph.yValue
  simp only []
  generalize fl.toInt (fl.Round (fl.mul (fl.sub (lg.maxValue fl first) v)
    (lg.yScale fl first))) = y
  split_ifs <;> omega

end graph

/-! ## The line graph: canvas and writes -/

namespace graph

theorem LineGraph.pointRow_eq {F : Type} (fl : Float64 F) (lg : LineGraph F) (first : F)
    (rest : List F) (hdata : lg.data = first :: rest) (i : Nat) (v : F)
    (hv : lg.data[i]? = some v) : lg.pointRow fl i = lg.yValue fl first v := by
  unfold LineGraph.pointRow
  rw [hv, hdata]

end graph

/-! ## The rows of the line graph -/

namespace graph

theorem foldl_maxMin_pair {F : Type} (fl : Float64 F) (l : List F) (a b : F) :
    l.foldl
        (fun mm val =>
          ((if fl.lt mm.1 val then val else mm.1), (if fl.lt val mm.2 then val else mm.2)))
        (a, b)
      = (l.foldl (fun m v => if fl.lt m v then v else m) a,
         l.foldl (fun m v => if fl.lt v m then v else m) b) := by
  induction l generalizing a b with
  | nil => rfl
  | cons x xs ih => simp only [List.foldl_cons, ih]

end graph

namespace graph

end graph

/-! ## The label line of the line graph -/

namespace graph

theorem LineGraph.labelLine_eq_foldl {F : Type} (lg : LineGraph F) :
    lg.labelLine = lg.labels.enum.foldl lg.labelStep (some []) := rfl

theorem LineGraph.foldl_labelStep_none {F : Type} (lg : LineGraph F) (l : List (Nat × Str)) :
    l.foldl lg.labelStep none = none := by
  induction l with
  | nil => rfl
  | cons x l ih => simpa [LineGraph.labelStep] using ih

theorem LineGraph.foldl_labelStep_fits {F : Type} (lg : LineGraph F) (l : List (Nat × Str))
    (hfit : ∀ p ∈ l, (p.1 : Int) < (lg.labels.length : Int) - 1 →
      utf8.RuneCountInString p.2 ≤ lg.labelSpacing) (acc : Str) :
    l.foldl lg.labelStep (some acc) = some (acc ++ (l.map lg.paddedLabel).flatten) := by
  induction l generalizing acc with
  | nil => simp
  | cons p l ih =>
    have hrest := fun q hq => hfit q (List.mem_cons_of_mem _ hq)
    simp only [List.foldl_cons, List.map_cons, List.flatten_cons]
    by_cases hlast : (p.1 : Int) < (lg.labels.length : Int) - 1
    · have hle := hfit p (List.mem_cons_self _ _) hlast
      have hstep : lg.labelStep (some acc) p = some (acc ++ lg.paddedLabel p) := by
        simp only [LineGraph.labelStep, LineGraph.paddedLabel, hlast, if_true]
        rw [strings.Repeat_space _ (by omega)]
        simp
      rw [hstep, ih hrest]
      simp
    · have hstep : lg.labelStep (some acc) p = some (acc ++ lg.paddedLabel p) := by
        simp only [LineGraph.labelStep, LineGraph.paddedLabel, hlast, if_false]
      rw [hstep, ih hrest]
      simp

/-- When every label but the last is no longer than the spacing, the label
line is the labels, each but the last followed by spaces up to the spacing. -/
theorem LineGraph.labelLine_of_fits {F : Type} (lg : LineGraph F)
    (hfit : ∀ i l, lg.labels[i]? = some l → i + 1 < lg.labels.length →
      utf8.RuneCountInString l ≤ lg.labelSpacing) :
    lg.labelLine = some (lg.labels.enum.map lg.paddedLabel).flatten := by
  rw [lg.labelLine_eq_foldl, lg.foldl_labelStep_fits _ _ []]
  · simp
  · intro p hp hlt
    have hget := List.mem_enum_iff_getElem?.mp hp
    exact hfit p.1 p.2 hget (by omega)

/-- When a label other than the last is longer than the spacing, the label
line is not computed: `strings.Repeat` panics on the negative count. -/
theorem LineGraph.labelLine_of_long {F : Type} (lg : LineGraph F) (i : Nat) (l : Str)
    (hl : lg.labels[i]? = some l) (hi : i + 1 < lg.labels.length)
    (hlong : lg.labelSpacing < utf8.RuneCountInString l) :
    lg.labelLine = none := by
  have hmem : (i, l) ∈ lg.labels.enum := List.mk_mem_enum_iff_getElem?.mpr hl
  obtain ⟨pre, post, hsplit⟩ := List.append_of_mem hmem
  rw [lg.labelLine_eq_foldl, hsplit, List.foldl_append, List.foldl_cons]
  have hstep : ∀ o, lg.labelStep o (i, l) = none := by
    intro o
    cases o with
    | none => rfl
    | some acc =>
      have h1 : ((i : Nat) : Int) < (lg.labels.length : Int) - 1 := by omega
      have h2 : lg.labelSpacing - utf8.RuneCountInString l < 0 := by omega
      simp [LineGraph.labelStep, h1, strings.Repeat, h2]
  rw [hstep, lg.foldl_labelStep_none]

end graph

/-! ## Rounding to float64 -/

theorem F64.pow2_eq (e : Int) : F64.pow2 e = (2 : ℚ) ^ e := by
  unfold F64.pow2
  split_ifs with h
  · obtain ⟨n, rfl⟩ := Int.eq_ofNat_of_zero_le h
    simp
  · push_neg at h
    obtain ⟨n, hn⟩ := Int.eq_ofNat_of_zero_le (show 0 ≤ -e by omega)
    have he : e = -(n : Int) := by omega
    subst he
    simp

theorem F64.pow2_pos (e : Int) : 0 < F64.pow2 e := by
  rw [F64.pow2_eq]; positivity

theorem F64.log2Fuel_eq : ∀ fuel n, n ≤ fuel → F64.log2Fuel fuel n = Nat.log2 n := by
  intro fuel
  induction fuel with
  | zero =>
    intro n hn
    have : n = 0 := by omega
    subst this
    rw [Nat.log2]
    simp [F64.log2Fuel]
  | succ k ih =>
    intro n hn
    rw [Nat.log2]
    unfold F64.log2Fuel
    by_cases h : n ≥ 2
    · rw [if_pos h, if_pos h, ih _ (by omega)]
    · rw [if_neg h, if_neg h]

theorem F64.log2_eq (n : Nat) : F64.log2 n = Nat.log2 n :=
  F64.log2Fuel_eq n n (le_refl n)

theorem F64.expo_eq (q : ℚ) :
    F64.expo q
      = if (2 : ℚ) ^ ((q.num.natAbs.log2 : Int) - (q.den.log2 : Int)) ≤ |q| then
          (q.num.natAbs.log2 : Int) - (q.den.log2 : Int)
        else (q.num.natAbs.log2 : Int) - (q.den.log2 : Int) - 1 := by
  unfold F64.expo
  simp only [F64.log2_eq, F64.pow2_eq]

theorem F64.expo_spec (q : ℚ) (hq : q ≠ 0) :
    (2 : ℚ) ^ (F64.expo q) ≤ |q| ∧ |q| < (2 : ℚ) ^ (F64.expo q + 1) := by
  have hnum : q.num.natAbs ≠ 0 := by
    simpa using hq
  have hden : q.den ≠ 0 := q.den_nz
  have ha1 := Nat.log2_self_le hnum
  have ha2 := @Nat.lt_log2_self q.num.natAbs
  have hb1 := Nat.log2_self_le hden
  have hb2 := @Nat.lt_log2_self q.den
  have habs : |q| = (q.num.natAbs : ℚ) / (q.den : ℚ) := by
    conv_lhs => rw [← Rat.num_div_den q]
    rw [abs_div, Nat.abs_cast]
    congr 1
    rw [Nat.cast_natAbs, Int.cast_abs]
  set a := q.num.natAbs
  set b := q.den
  set la := a.log2
  set lb := b.log2
  have hbpos : (0 : ℚ) < b := by positivity
  have ha1q : (2 : ℚ) ^ la ≤ a := by exact_mod_cast ha1
  have ha2q : (a : ℚ) < 2 ^ (la + 1) := by exact_mod_cast ha2
  have hb1q : (2 : ℚ) ^ lb ≤ b := by exact_mod_cast hb1
  have hb2q : (b : ℚ) < 2 ^ (lb + 1) := by exact_mod_cast hb2
  have hk : ((la : Int) - (lb : Int)) = ((la : Int) - (lb : Int)) := rfl
  have e1 : (2 : ℚ) ^ ((la : Int) - (lb : Int) - 1) < |q| := by
    rw [habs, lt_div_iff₀ hbpos]
    have : (2 : ℚ) ^ ((la : Int) - (lb : Int) - 1) = 2 ^ la / 2 ^ (lb + 1) := by
      rw [show ((la : Int) - (lb : Int) - 1) = (la : Int) - ((lb + 1 : Nat) : Int) by push_cast; ring]
      rw [zpow_sub₀ (by norm_num), zpow_natCast, zpow_natCast]
    rw [this, div_mul_eq_mul_div, div_lt_iff₀ (by positivity)]
    calc (2 : ℚ) ^ la * b < 2 ^ la * 2 ^ (lb + 1) := by
          apply mul_lt_mul_of_pos_left hb2q (by positivity)
      _ ≤ a * 2 ^ (lb + 1) := by
          apply mul_le_mul_of_nonneg_right ha1q (by positivity)
  have e2 : |q| < (2 : ℚ) ^ ((la : Int) - (lb : Int) + 1) := by
    rw [habs, div_lt_iff₀ hbpos]
    have : (2 : ℚ) ^ ((la : Int) - (lb : Int) + 1) = 2 ^ (la + 1) / 2 ^ lb := by
      rw [show ((la : Int) - (lb : Int) + 1) = ((la + 1 : Nat) : Int) - (lb : Int) by push_cast; ring]
      rw [zpow_sub₀ (by norm_num), zpow_natCast, zpow_natCast]
    rw [this, div_mul_eq_mul_div, lt_div_iff₀ (by positivity)]
    calc (a : ℚ) * 2 ^ lb < 2 ^ (la + 1) * 2 ^ lb := by
          apply mul_lt_mul_of_pos_right ha2q (by positivity)
      _ ≤ 2 ^ (la + 1) * b := by
          apply mul_le_mul_of_nonneg_left hb1q (by positivity)
  rw [F64.expo_eq]
  split_ifs with h
  · exact ⟨h, e2⟩
  · push_neg at h
    refine ⟨le_of_lt e1, ?_⟩
    rw [show ((la : Int) - (lb : Int) - 1 + 1) = (la : Int) - (lb : Int) by ring]
    exact h


theorem F64.roundEven_intCast (z : Int) : F64.roundEven (z : ℚ) = z := by
  unfold F64.roundEven
  simp

theorem F64.floor_le_roundEven (x : ℚ) : ⌊x⌋ ≤ F64.roundEven x := by
  unfold F64.roundEven
  simp only []
  split_ifs <;> omega

theorem F64.roundEven_le_floor_succ (x : ℚ) : F64.roundEven x ≤ ⌊x⌋ + 1 := by
  unfold F64.roundEven
  simp only []
  split_ifs <;> omega

theorem F64.roundEven_mono {x y : ℚ} (h : x ≤ y) : F64.roundEven x ≤ F64.roundEven y := by
  have hf : ⌊x⌋ ≤ ⌊y⌋ := Int.floor_mono h
  rcases Nat.lt_or_ge 0 (⌊y⌋ - ⌊x⌋).toNat with hlt | hge
  · have : ⌊x⌋ + 1 ≤ ⌊y⌋ := by omega
    exact le_trans (F64.roundEven_le_floor_succ x) (le_trans this (F64.floor_le_roundEven y))
  · have heq : ⌊x⌋ = ⌊y⌋ := by omega
    unfold F64.roundEven
    simp only []
    rw [heq]
    have hxy : x - (⌊y⌋ : ℚ) ≤ y - (⌊y⌋ : ℚ) := by linarith
    split_ifs <;> first | omega | (exfalso; linarith)

theorem F64.roundEven_neg (x : ℚ) : F64.roundEven (-x) = -F64.roundEven x := by
  have h0 : (0 : ℚ) ≤ x - ⌊x⌋ := by linarith [Int.floor_le x]
  have h1 : x - ⌊x⌋ < 1 := by linarith [Int.lt_floor_add_one x]
  by_cases hx : x - ⌊x⌋ = 0
  · have : x = (⌊x⌋ : ℚ) := by linarith
    rw [this, ← Int.cast_neg, F64.roundEven_intCast, F64.roundEven_intCast]
  · have hpos : 0 < x - ⌊x⌋ := lt_of_le_of_ne h0 (Ne.symm hx)
    have hfl : ⌊-x⌋ = -⌊x⌋ - 1 := by
      rw [Int.floor_eq_iff]
      push_cast
      constructor <;> linarith
    unfold F64.roundEven
    simp only []
    rw [hfl]
    push_cast
    split_ifs <;> first | omega | (exfalso; linarith)

theorem F64.roundEven_sub_le (x : ℚ) : |(F64.roundEven x : ℚ) - x| ≤ 1 / 2 := by
  have h0 : (0 : ℚ) ≤ x - ⌊x⌋ := by linarith [Int.floor_le x]
  have h1 : x - ⌊x⌋ < 1 := by linarith [Int.lt_floor_add_one x]
  unfold F64.roundEven
  simp only []
  rw [abs_le]
  split_ifs <;> push_cast <;> constructor <;> linarith

theorem F64.roundEven_nonneg {x : ℚ} (h : 0 ≤ x) : 0 ≤ F64.roundEven x := by
  have := F64.roundEven_mono h
  rwa [show ((0 : ℚ)) = ((0 : Int) : ℚ) by simp, F64.roundEven_intCast] at this


theorem F64.expo_neg (q : ℚ) : F64.expo (-q) = F64.expo q := by
  unfold F64.expo
  simp

theorem F64.ulp_neg (q : ℚ) : F64.ulp (-q) = F64.ulp q := by
  unfold F64.ulp
  rw [F64.expo_neg]

theorem F64.ulp_eq (q : ℚ) : F64.ulp q = (2 : ℚ) ^ (Max.max (F64.expo q) (-1022) - 52) := by
  unfold F64.ulp
  rw [F64.pow2_eq]

theorem F64.ulp_pos (q : ℚ) : 0 < F64.ulp q := F64.pow2_pos _

theorem F64.rndQ_neg (q : ℚ) : F64.rndQ (-q) = -F64.rndQ q := by
  unfold F64.rndQ
  rw [F64.ulp_neg, neg_div, F64.roundEven_neg]
  push_cast
  ring

theorem F64.rndQ_zero : F64.rndQ 0 = 0 := by
  unfold F64.rndQ
  rw [zero_div, show ((0 : ℚ)) = ((0 : Int) : ℚ) by simp, F64.roundEven_intCast]
  simp

theorem F64.rndQ_nonneg {q : ℚ} (h : 0 ≤ q) : 0 ≤ F64.rndQ q := by
  unfold F64.rndQ
  have hu := F64.ulp_pos q
  have : 0 ≤ F64.roundEven (q / F64.ulp q) := F64.roundEven_nonneg (by positivity)
  have : (0 : ℚ) ≤ (F64.roundEven (q / F64.ulp q) : ℚ) := by exact_mod_cast this
  positivity

theorem F64.expo_mono {q1 q2 : ℚ} (h1 : 0 < q1) (h : q1 ≤ q2) : F64.expo q1 ≤ F64.expo q2 := by
  have h2 : 0 < q2 := lt_of_lt_of_le h1 h
  have s1 := F64.expo_spec q1 (ne_of_gt h1)
  have s2 := F64.expo_spec q2 (ne_of_gt h2)
  rw [abs_of_pos h1] at s1
  rw [abs_of_pos h2] at s2
  have : (2 : ℚ) ^ F64.expo q1 < 2 ^ (F64.expo q2 + 1) :=
    lt_of_le_of_lt s1.1 (lt_of_le_of_lt h s2.2)
  rw [zpow_lt_zpow_iff_right₀ (by norm_num)] at this
  omega

theorem F64.rndQ_mono_pos {q1 q2 : ℚ} (h1 : 0 < q1) (h : q1 ≤ q2) :
    F64.rndQ q1 ≤ F64.rndQ q2 := by
  have h2 : 0 < q2 := lt_of_lt_of_le h1 h
  have he := F64.expo_mono h1 h
  have s1 := F64.expo_spec q1 (ne_of_gt h1)
  have s2 := F64.expo_spec q2 (ne_of_gt h2)
  rw [abs_of_pos h1] at s1
  rw [abs_of_pos h2] at s2
  have hu1 := F64.ulp_eq q1
  have hu2 := F64.ulp_eq q2
  have hp1 := F64.ulp_pos q1
  have hp2 := F64.ulp_pos q2
  unfold F64.rndQ
  set e1 := F64.expo q1
  set e2 := F64.expo q2
  set u1 := F64.ulp q1
  set u2 := F64.ulp q2
  by_cases hE : Max.max e1 (-1022) = Max.max e2 (-1022)
  · have hu : u1 = u2 := by rw [hu1, hu2, hE]
    rw [hu]
    have : q1 / u2 ≤ q2 / u2 := by
      apply div_le_div_of_nonneg_right h (le_of_lt hp2)
    have := F64.roundEven_mono this
    have : (F64.roundEven (q1 / u2) : ℚ) ≤ (F64.roundEven (q2 / u2) : ℚ) := by exact_mod_cast this
    exact mul_le_mul_of_nonneg_right this (le_of_lt hp2)
  · have hlt : Max.max e1 (-1022) < Max.max e2 (-1022) := by omega
    have hE2 : Max.max e2 (-1022) = e2 := by omega
    set E1 := Max.max e1 (-1022)
    -- the upper bound of the rounding of q1
    have b1 : (F64.roundEven (q1 / u1) : ℚ) * u1 ≤ (2 : ℚ) ^ (E1 + 1) := by
      have hq1 : q1 ≤ (2 : ℚ) ^ (E1 + 1) := by
        apply le_trans (le_of_lt s1.2)
        apply zpow_le_zpow_right₀ (by norm_num)
        omega
      have : q1 / u1 ≤ ((2 ^ 53 : Int) : ℚ) := by
        rw [div_le_iff₀ hp1, hu1]
        have : (((2 ^ 53 : Int) : ℚ)) * (2 : ℚ) ^ (E1 - 52) = (2 : ℚ) ^ (E1 + 1) := by
          rw [show (((2 ^ 53 : Int) : ℚ)) = (2 : ℚ) ^ (53 : Int) by norm_num,
            ← zpow_add₀ (by norm_num)]
          congr 1
          ring
        rw [this]
        exact hq1
      have := F64.roundEven_mono this
      rw [F64.roundEven_intCast] at this
      have : (F64.roundEven (q1 / u1) : ℚ) ≤ ((2 ^ 53 : Int) : ℚ) := by exact_mod_cast this
      calc (F64.roundEven (q1 / u1) : ℚ) * u1 ≤ ((2 ^ 53 : Int) : ℚ) * u1 :=
            mul_le_mul_of_nonneg_right this (le_of_lt hp1)
        _ = (2 : ℚ) ^ (E1 + 1) := by
            rw [hu1, show (((2 ^ 53 : Int) : ℚ)) = (2 : ℚ) ^ (53 : Int) by norm_num,
              ← zpow_add₀ (by norm_num)]
            congr 1
            ring
    have b2 : (2 : ℚ) ^ e2 ≤ (F64.roundEven (q2 / u2) : ℚ) * u2 := by
      have : ((2 ^ 52 : Int) : ℚ) ≤ q2 / u2 := by
        rw [le_div_iff₀ hp2, hu2, hE2]
        have : (((2 ^ 52 : Int) : ℚ)) * (2 : ℚ) ^ (e2 - 52) = (2 : ℚ) ^ e2 := by
          rw [show (((2 ^ 52 : Int) : ℚ)) = (2 : ℚ) ^ (52 : Int) by norm_num,
            ← zpow_add₀ (by norm_num)]
          congr 1
          ring
        rw [this]
        exact s2.1
      have := F64.roundEven_mono this
      rw [F64.roundEven_intCast] at this
      have : ((2 ^ 52 : Int) : ℚ) ≤ (F64.roundEven (q2 / u2) : ℚ) := by exact_mod_cast this
      calc (2 : ℚ) ^ e2 = ((2 ^ 52 : Int) : ℚ) * u2 := by
            rw [hu2, hE2, show (((2 ^ 52 : Int) : ℚ)) = (2 : ℚ) ^ (52 : Int) by norm_num,
              ← zpow_add₀ (by norm_num)]
            congr 1
            ring
        _ ≤ (F64.roundEven (q2 / u2) : ℚ) * u2 :=
            mul_le_mul_of_nonneg_right this (le_of_lt hp2)
    have b3 : (2 : ℚ) ^ (E1 + 1) ≤ (2 : ℚ) ^ e2 := by
      apply zpow_le_zpow_right₀ (by norm_num)
      omega
    exact le_trans b1 (le_trans b3 b2)

/-- Rounding to nearest is monotone. -/
theorem F64.rndQ_mono {q1 q2 : ℚ} (h : q1 ≤ q2) : F64.rndQ q1 ≤ F64.rndQ q2 := by
  rcases lt_trichotomy q1 0 with h1 | h1 | h1
  · rcases lt_or_le q2 0 with h2 | h2
    · have := F64.rndQ_mono_pos (show 0 < -q2 by linarith) (show -q2 ≤ -q1 by linarith)
      rw [F64.rndQ_neg, F64.rndQ_neg] at this
      linarith
    · have a := F64.rndQ_nonneg h2
      have b := F64.rndQ_nonneg (show 0 ≤ -q1 by linarith)
      rw [F64.rndQ_neg] at b
      linarith
  · subst h1
    rw [F64.rndQ_zero]
    exact F64.rndQ_nonneg h
  · exact F64.rndQ_mono_pos h1 h


theorem F64.rndQ_of_int_div (q : ℚ) (n : Int) (h : q / F64.ulp q = n) : F64.rndQ q = q := by
  unfold F64.rndQ
  rw [h, F64.roundEven_intCast, ← h]
  exact div_mul_cancel₀ q (ne_of_gt (F64.ulp_pos q))

theorem F64.rndQ_natCast_pos (z : Nat) (h0 : 0 < z) (hz : z ≤ 2 ^ 53) :
    F64.rndQ (z : ℚ) = z := by
  have hq : (0 : ℚ) < z := by exact_mod_cast h0
  have s := F64.expo_spec (z : ℚ) (ne_of_gt hq)
  rw [abs_of_pos hq] at s
  have hu := F64.ulp_eq (z : ℚ)
  set e := F64.expo (z : ℚ)
  have he0 : 0 ≤ e := by
    have : (2 : ℚ) ^ (0 : Int) < 2 ^ (e + 1) := by
      rw [zpow_zero]
      apply lt_of_le_of_lt _ s.2
      exact_mod_cast h0
    rw [zpow_lt_zpow_iff_right₀ (by norm_num)] at this
    omega
  have he53 : e ≤ 53 := by
    have : (2 : ℚ) ^ e ≤ 2 ^ (53 : Int) := by
      apply le_trans s.1
      have : (z : ℚ) ≤ ((2 ^ 53 : Nat) : ℚ) := by exact_mod_cast hz
      apply le_trans this
      norm_num
    rwa [zpow_le_zpow_iff_right₀ (by norm_num)] at this
  have hE : Max.max e (-1022) = e := by omega
  rw [hE] at hu
  rcases Nat.lt_or_ge (52 - e).toNat 0 with hc | hc
  · omega
  · by_cases h52 : e ≤ 52
    · obtain ⟨n, hn⟩ := Int.eq_ofNat_of_zero_le (show 0 ≤ 52 - e by omega)
      apply F64.rndQ_of_int_div _ ((z : Int) * 2 ^ n)
      rw [hu, show e - 52 = -(n : Int) by omega, zpow_neg, zpow_natCast]
      push_cast
      rw [div_eq_mul_inv, inv_inv]
    · have he : e = 53 := by omega
      have hz2 : z = 2 ^ 53 := by
        have h1 := s.1
        rw [he] at h1
        have : ((2 ^ 53 : Nat) : ℚ) ≤ (z : ℚ) := by
          apply le_trans _ h1
          norm_num
        have : 2 ^ 53 ≤ z := by exact_mod_cast this
        omega
      apply F64.rndQ_of_int_div _ (2 ^ 52)
      rw [hu, he, hz2]
      norm_num

/-- An integer of magnitude at most 2^53 is a float64: its conversion is exact. -/
theorem F64.rndQ_intCast (z : Int) (hz : |z| ≤ 2 ^ 53) : F64.rndQ (z : ℚ) = z := by
  rcases lt_trichotomy z 0 with h | h | h
  · obtain ⟨n, hn⟩ := Int.eq_ofNat_of_zero_le (show 0 ≤ -z by omega)
    have hzn : z = -(n : Int) := by omega
    subst hzn
    have hn0 : 0 < n := by omega
    have hn53 : n ≤ 2 ^ 53 := by
      rw [abs_neg] at hz
      have : |(n : Int)| = n := abs_of_nonneg (by omega)
      rw [this] at hz
      exact_mod_cast hz
    push_cast
    rw [F64.rndQ_neg, F64.rndQ_natCast_pos n hn0 hn53]
  · subst h
    simpa using F64.rndQ_zero
  · obtain ⟨n, hn⟩ := Int.eq_ofNat_of_zero_le (show 0 ≤ z by omega)
    subst hn
    have hn0 : 0 < n := by omega
    have hn53 : n ≤ 2 ^ 53 := by
      have : |(n : Int)| = n := abs_of_nonneg (by omega)
      rw [this] at hz
      exact_mod_cast hz
    push_cast
    exact F64.rndQ_natCast_pos n hn0 hn53

/-- The rounding error is at most half a unit in the last place. -/
theorem F64.abs_rndQ_sub_le (q : ℚ) : |F64.rndQ q - q| ≤ F64.ulp q / 2 := by
  have hu := F64.ulp_pos q
  have h := F64.roundEven_sub_le (q / F64.ulp q)
  unfold F64.rndQ
  have : (F64.roundEven (q / F64.ulp q) : ℚ) * F64.ulp q - q
      = ((F64.roundEven (q / F64.ulp q) : ℚ) - q / F64.ulp q) * F64.ulp q := by
    field_simp
  rw [this, abs_mul, abs_of_pos hu]
  calc |(F64.roundEven (q / F64.ulp q) : ℚ) - q / F64.ulp q| * F64.ulp q
      ≤ 1 / 2 * F64.ulp q := mul_le_mul_of_nonneg_right h (le_of_lt hu)
    _ = F64.ulp q / 2 := by ring

/-- In the normal range a unit in the last place is at most 2^-52 of the
value. -/
theorem F64.ulp_le (q : ℚ) (h : (2 : ℚ) ^ (-1022 : Int) ≤ |q|) :
    F64.ulp q ≤ |q| * (2 : ℚ) ^ (-52 : Int) := by
  have hq : q ≠ 0 := by
    intro h0
    rw [h0, abs_zero] at h
    have : (0 : ℚ) < (2 : ℚ) ^ (-1022 : Int) := by positivity
    linarith
  have s := F64.expo_spec q hq
  have he : -1022 ≤ F64.expo q := by
    have : (2 : ℚ) ^ (-1022 : Int) < 2 ^ (F64.expo q + 1) := lt_of_le_of_lt h s.2
    rw [zpow_lt_zpow_iff_right₀ (by norm_num)] at this
    omega
  rw [F64.ulp_eq, show Max.max (F64.expo q) (-1022) = F64.expo q by omega,
    zpow_sub₀ (by norm_num), div_eq_mul_inv, ← zpow_neg]
  exact mul_le_mul_of_nonneg_right s.1 (by positivity)


theorem F64.abs_rndQ_le {q b : ℚ} (hb : F64.rndQ b = b) (h : |q| ≤ b) : |F64.rndQ q| ≤ b := by
  rw [abs_le] at h ⊢
  constructor
  · have := F64.rndQ_mono h.1
    rwa [F64.rndQ_neg, hb] at this
  · have := F64.rndQ_mono h.2
    rwa [hb] at this

theorem F64.rndQ_two_pow_1023 : F64.rndQ (F64.pow2 1023) = F64.pow2 1023 := by
  decide!

theorem F64.rndQ_two_pow_63 : F64.rndQ 9223372036854775808 = 9223372036854775808 := by
  decide!

/-- A result of magnitude at most 2^1023 does not overflow. -/
theorem F64.round_eq_fin (q : ℚ) (h : |q| ≤ F64.pow2 1023) :
    F64.round q = F64.fin (F64.rndQ q) := by
  have h1 := F64.abs_rndQ_le F64.rndQ_two_pow_1023 h
  have h2 : F64.pow2 1023 < F64.pow2 1024 := by decide!
  unfold F64.round
  simp only []
  rw [if_neg (by linarith)]

theorem F64.two_pow_63_le : (9223372036854775808 : ℚ) ≤ F64.pow2 1023 := by
  decide!

theorem F64.ofInt_of_abs_le (z : Int) (hz : |z| ≤ 9223372036854775808) :
    F64.ofInt z = F64.fin (F64.rndQ z) := by
  unfold F64.ofInt
  apply F64.round_eq_fin
  have : |(z : ℚ)| ≤ 9223372036854775808 := by
    have : ((|z| : Int) : ℚ) ≤ ((9223372036854775808 : Int) : ℚ) := by exact_mod_cast hz
    simpa using this
  exact le_trans this F64.two_pow_63_le

/-- The conversion of an integer of magnitude at most 2^53 is exact. -/
theorem F64.ofInt_eq_fin (z : Int) (hz : |z| ≤ 2 ^ 53) : F64.ofInt z = F64.fin z := by
  rw [F64.ofInt_of_abs_le z (by omega), F64.rndQ_intCast z hz]

theorem F64.div_fin (a b : ℚ) :
    F64.div (F64.fin a) (F64.fin b)
      = if b = 0 then (if a = 0 then F64.nan else F64.inf (decide (0 < a)))
        else F64.round (a / b) := rfl

theorem F64.mul_fin (a b : ℚ) : F64.mul (F64.fin a) (F64.fin b) = F64.round (a * b) := rfl

theorem F64.add_fin (a b : ℚ) : F64.add (F64.fin a) (F64.fin b) = F64.round (a + b) := rfl

theorem F64.sub_fin (a b : ℚ) : F64.sub (F64.fin a) (F64.fin b) = F64.round (a - b) := by
  show F64.round (a + -b) = F64.round (a - b)
  rw [sub_eq_add_neg]

theorem F64.toInt_fin (q : ℚ) (h0 : 0 ≤ q) (h : q < 9223372036854775808) :
    F64.toInt (F64.fin q) = ⌊q⌋ := by
  unfold F64.toInt
  simp only [if_pos h0]
  have h1 : (0 : Int) ≤ ⌊q⌋ := Int.floor_nonneg.mpr h0
  have h2 : ⌊q⌋ < 9223372036854775808 := by
    rw [Int.floor_lt]
    exact_mod_cast h
  rw [if_pos ⟨by omega, h2⟩]

namespace graph

end graph

/-! ### The order of float64 -/

theorem F64.lt_false_of_le {a b : F64} (h : F64.le a b = true) : F64.lt b a = false := by
  cases a <;> cases b <;> simp [F64.le, F64.lt, F64.eq] at h ⊢
  rcases h with h | h
  · exact le_of_lt h
  · exact le_of_eq h

theorem F64.eq_of_le_of_lt_false {a b : F64} (h : F64.le a b = true) (h2 : F64.lt a b = false) :
    a = b := by
  cases a <;> cases b <;> simp [F64.le, F64.lt, F64.eq] at h h2 ⊢
  rcases h with h | h
  · exact absurd h (not_lt.mpr h2)
  · exact h

theorem F64.le_transitive {a b c : F64} (h1 : F64.le a b = true) (h2 : F64.le b c = true) :
    F64.le a c = true := by
  cases a <;> cases b <;> cases c <;> simp [F64.le, F64.lt, F64.eq] at h1 h2 ⊢
  rcases h1 with h1 | h1 <;> rcases h2 with h2 | h2
  · exact Or.inl (lt_trans h1 h2)
  · exact Or.inl (h2 ▸ h1)
  · exact Or.inl (h1 ▸ h2)
  · exact Or.inr (h1.trans h2)

theorem F64.le_of_lt_false {a b : F64} (ha : F64.le a a = true) (hb : F64.le b b = true)
    (h : F64.lt a b = false) : F64.le b a = true := by
  cases a <;> cases b <;> simp [F64.le, F64.lt, F64.eq] at ha hb h ⊢
  exact lt_or_eq_of_le h

/-- The running maximum of a series without NaN is its largest value. -/
theorem F64.foldl_max (data : List F64) (a0 hi : F64) (hhi : hi ∈ a0 :: data)
    (hmax : ∀ v ∈ a0 :: data, F64.le v hi = true) :
    data.foldl (fun m v => if Float64.ieee.lt m v then v else m) a0 = hi := by
  induction data generalizing a0 with
  | nil =>
    simp only [List.mem_singleton] at hhi
    simp [hhi]
  | cons x xs ih =>
    simp only [List.foldl_cons]
    have hx : F64.le x hi = true := hmax x (by simp)
    have ha : F64.le a0 hi = true := hmax a0 (by simp)
    have hrest : ∀ v ∈ xs, F64.le v hi = true := fun v hv => hmax v (by simp [hv])
    show xs.foldl (fun m v => if Float64.ieee.lt m v then v else m)
      (if F64.lt a0 x then x else a0) = hi
    by_cases hlt : F64.lt a0 x = true
    · rw [if_pos hlt]
      apply ih
      · rcases List.mem_cons.mp hhi with h | h
        · -- hi = a0 < x ≤ hi
          subst h
          have := F64.lt_false_of_le hx
          rw [hlt] at this
          exact absurd this (by simp)
        · exact h
      · intro v hv
        rcases List.mem_cons.mp hv with rfl | hv
        · exact hx
        · exact hrest v hv
    · rw [if_neg hlt]
      have hlt' : F64.lt a0 x = false := by simpa using hlt
      apply ih
      · rcases List.mem_cons.mp hhi with h | h
        · rw [h]; exact List.mem_cons_self _ _
        · rcases List.mem_cons.mp h with h | h
          · -- hi = x, and a0 ≤ x without a0 < x: a0 = x
            subst h
            rw [F64.eq_of_le_of_lt_false ha hlt']
            exact List.mem_cons_self _ _
          · exact List.mem_cons_of_mem _ h
      · intro v hv
        rcases List.mem_cons.mp hv with rfl | hv
        · exact ha
        · exact hrest v hv

/-- The running minimum of a series without NaN is its smallest value. -/
theorem F64.foldl_min (data : List F64) (a0 lo : F64) (hlo : lo ∈ a0 :: data)
    (hmin : ∀ v ∈ a0 :: data, F64.le lo v = true) :
    data.foldl (fun m v => if Float64.ieee.lt v m then v else m) a0 = lo := by
  induction data generalizing a0 with
  | nil =>
    simp only [List.mem_singleton] at hlo
    simp [hlo]
  | cons x xs ih =>
    simp only [List.foldl_cons]
    have hx : F64.le lo x = true := hmin x (by simp)
    have ha : F64.le lo a0 = true := hmin a0 (by simp)
    have hrest : ∀ v ∈ xs, F64.le lo v = true := fun v hv => hmin v (by simp [hv])
    show xs.foldl (fun m v => if Float64.ieee.lt v m then v else m)
      (if F64.lt x a0 then x else a0) = lo
    by_cases hlt : F64.lt x a0 = true
    · rw [if_pos hlt]
      apply ih
      · rcases List.mem_cons.mp hlo with h | h
        · subst h
          have := F64.lt_false_of_le hx
          rw [hlt] at this
          exact absurd this (by simp)
        · exact h
      · intro v hv
        rcases List.mem_cons.mp hv with rfl | hv
        · exact hx
        · exact hrest v hv
    · rw [if_neg hlt]
      have hlt' : F64.lt x a0 = false := by simpa using hlt
      apply ih
      · rcases List.mem_cons.mp hlo with h | h
        · rw [h]; exact List.mem_cons_self _ _
        · rcases List.mem_cons.mp h with h | h
          · subst h
            have e := F64.eq_of_le_of_lt_false ha hlt'
            rw [← e]
            exact List.mem_cons_self _ _
          · exact List.mem_cons_of_mem _ h
      · intro v hv
        rcases List.mem_cons.mp hv with rfl | hv
        · exact ha
        · exact hrest v hv

theorem F64.round_zero : F64.round 0 = F64.fin 0 := by decide!

/-- Whatever the scale, the product of `x - x` by it converts to an `int`
that is not positive: 0, or the conversion of NaN. -/
theorem F64.toInt_Round_mul_sub_self (M S : F64) :
    F64.toInt (F64.Round (F64.mul (F64.sub M M) S)) ≤ 0 := by
  cases M with
  | fin m =>
    rw [F64.sub_fin, sub_self, F64.round_zero]
    cases S with
    | fin s =>
      rw [F64.mul_fin, zero_mul, F64.round_zero]
      decide!
    | pinf => decide!
    | ninf => decide!
    | nan => decide!
  | pinf =>
    have : F64.mul (F64.sub F64.pinf F64.pinf) S = F64.nan := rfl
    rw [this]
    decide!
  | ninf =>
    have : F64.mul (F64.sub F64.ninf F64.ninf) S = F64.nan := rfl
    rw [this]
    decide!
  | nan =>
    have : F64.mul (F64.sub F64.nan F64.nan) S = F64.nan := rfl
    rw [this]
    decide!

/-- In the normal range the rounding error is at most 2^-53 of the value. -/
theorem F64.abs_rndQ_sub_le_mul (q : ℚ) (h : (2 : ℚ) ^ (-1022 : Int) ≤ |q|) :
    |F64.rndQ q - q| ≤ |q| * (2 : ℚ) ^ (-53 : Int) := by
  have h1 := F64.abs_rndQ_sub_le q
  have h2 := F64.ulp_le q h
  have : |q| * (2 : ℚ) ^ (-53 : Int) = |q| * (2 : ℚ) ^ (-52 : Int) / 2 := by
    rw [show (-53 : Int) = -52 + -1 by norm_num, zpow_add₀ (by norm_num)]
    norm_num
    ring
  rw [this]
  calc |F64.rndQ q - q| ≤ F64.ulp q / 2 := h1
    _ ≤ |q| * (2 : ℚ) ^ (-52 : Int) / 2 :=
        div_le_div_of_nonneg_right h2 (by norm_num)

/-- The product of `d` by the quotient `k / d` rounds to `k`: for an
integer `k` from 1 to below 2^50 and a quotient in the normal range, the two
rounding errors stay below one half. -/
theorem F64.toInt_Round_mul_div (k : Int) (hk1 : 1 ≤ k) (hk : k < 1125899906842624)
    (d : ℚ) (hd : 0 < d) (h1 : F64.pow2 (-1022) ≤ (k : ℚ) / d)
    (h2 : (k : ℚ) / d ≤ F64.pow2 1023) :
    F64.toInt (F64.Round (F64.mul (F64.fin d) (F64.div (F64.fin k) (F64.fin d)))) = k := by
  have hkq1 : (1 : ℚ) ≤ (k : ℚ) := by exact_mod_cast hk1
  have hkq : (k : ℚ) < 1125899906842624 := by exact_mod_cast hk
  set x := (k : ℚ) / d with hx
  have hxpos : 0 < x := by positivity
  have e53 : ((2 : ℚ) ^ (-53 : Int)) = 1 / 9007199254740992 := by norm_num
  have hnorm : (2 : ℚ) ^ (-1022 : Int) ≤ |x| := by
    rw [abs_of_pos hxpos, ← F64.pow2_eq]
    exact h1
  have herr := F64.abs_rndQ_sub_le_mul x hnorm
  rw [abs_of_pos hxpos, e53, abs_le] at herr
  set s := F64.rndQ x with hs
  have hdx : d * x = k := by
    rw [hx]
    field_simp
  -- the quotient
  have hdiv : F64.div (F64.fin k) (F64.fin d) = F64.fin s := by
    rw [F64.div_fin, if_neg (ne_of_gt hd)]
    apply F64.round_eq_fin
    rw [abs_of_pos hxpos]
    exact h2
  -- the product
  set y := d * s with hy
  have hy1 : (k : ℚ) - k / 9007199254740992 ≤ y := by
    have : d * (x - x * (1 / 9007199254740992)) ≤ d * s :=
      mul_le_mul_of_nonneg_left (by linarith [herr.1]) (le_of_lt hd)
    have e : d * (x - x * (1 / 9007199254740992)) = d * x - d * x / 9007199254740992 := by ring
    rw [e, hdx] at this
    exact this
  have hy2 : y ≤ (k : ℚ) + k / 9007199254740992 := by
    have : d * s ≤ d * (x + x * (1 / 9007199254740992)) :=
      mul_le_mul_of_nonneg_left (by linarith [herr.2]) (le_of_lt hd)
    have e : d * (x + x * (1 / 9007199254740992)) = d * x + d * x / 9007199254740992 := by ring
    rw [e, hdx] at this
    exact this
  have hypos : 0 < y := by linarith
  have hynorm : (2 : ℚ) ^ (-1022 : Int) ≤ |y| := by
    rw [abs_of_pos hypos]
    have h12 : (2 : ℚ) ^ (-1022 : Int) ≤ 1 / 2 := by
      rw [show (1 / 2 : ℚ) = (2 : ℚ) ^ (-1 : Int) by norm_num]
      exact zpow_le_zpow_right₀ (by norm_num) (by norm_num)
    have hhalf : (1 / 2 : ℚ) ≤ y := by linarith
    exact h12.trans hhalf
  have herr2 := F64.abs_rndQ_sub_le_mul y hynorm
  rw [abs_of_pos hypos, e53, abs_le] at herr2
  set p := F64.rndQ y with hp
  have hmul : F64.mul (F64.fin d) (F64.fin s) = F64.fin p := by
    rw [F64.mul_fin]
    apply F64.round_eq_fin
    rw [abs_of_pos hypos]
    have : (2251799813685248 : ℚ) ≤ F64.pow2 1023 := by decide!
    linarith
  have hp1 : (k : ℚ) - 1 / 2 < p := by linarith [herr2.1]
  have hp2 : p < (k : ℚ) + 1 / 2 := by linarith [herr2.2]
  have hp0 : 0 ≤ p := by linarith
  have hfloor : ⌊p + 1 / 2⌋ = k := by
    rw [Int.floor_eq_iff]
    constructor <;> linarith
  rw [hdiv, hmul]
  unfold F64.Round
  simp only [if_pos hp0, hfloor]
  have hk0 : (0 : ℚ) ≤ (k : ℚ) := by linarith
  rw [F64.toInt_fin _ hk0 (by linarith)]
  exact Int.floor_intCast k

theorem F64.eq_iff (a b : F64) (ha : F64.le a a = true) : F64.eq a b = true ↔ a = b := by
  cases a <;> cases b <;> simp [F64.le, F64.lt, F64.eq] at ha ⊢

/-! ## The graphs in float64 arithmetic -/

namespace graph

theorem BarGraph.maxValue_ieee (bg : BarGraph F64) (m : F64) (hm : m ∈ bg.data)
    (hmax : ∀ v ∈ bg.data, F64.le v m = true) :
    bg.maxValue Float64.ieee = if F64.lt (F64.fin 0) m then m else F64.fin 1 := by
  have h0 : Float64.ieee.ofInt 0 = F64.fin 0 := by decide!
  have h1 : Float64.ieee.ofInt 1 = F64.fin 1 := by decide!
  have hmm : F64.le m m = true := hmax m hm
  unfold BarGraph.maxValue
  simp only [h0, h1]
  by_cases hlt : F64.lt (F64.fin 0) m = true
  · have hfold : bg.data.foldl (fun maxValue val =>
        if Float64.ieee.lt maxValue val then val else maxValue) (F64.fin 0) = m := by
      apply F64.foldl_max
      · exact List.mem_cons_of_mem _ hm
      · intro v hv
        rcases List.mem_cons.mp hv with rfl | hv
        · unfold F64.le
          rw [hlt]
          rfl
        · exact hmax v hv
    rw [hfold, if_pos hlt]
    have : Float64.ieee.eq m (F64.fin 0) = false := by
      show F64.eq m (F64.fin 0) = false
      cases m <;> simp [F64.lt, F64.eq] at hlt ⊢
      exact ne_of_gt hlt
    rw [this]
    rfl
  · have hlt' : F64.lt (F64.fin 0) m = false := by simpa using hlt
    have hm0 : F64.le m (F64.fin 0) = true :=
      F64.le_of_lt_false (by decide!) hmm hlt'
    have hfold : bg.data.foldl (fun maxValue val =>
        if Float64.ieee.lt maxValue val then val else maxValue) (F64.fin 0) = F64.fin 0 := by
      apply F64.foldl_max
      · exact List.mem_cons_self _ _
      · intro v hv
        rcases List.mem_cons.mp hv with rfl | hv
        · decide!
        · exact F64.le_transitive (hmax v hv) hm0
    rw [hfold, if_neg hlt]
    have : Float64.ieee.eq (F64.fin 0) (F64.fin 0) = true := by decide!
    rw [this]
    rfl

/-- In float64 arithmetic the scale of the bars is `10 / m` for a series
whose largest value `m` is positive, the division being the one of float64,
and 10 otherwise. -/
theorem BarGraph.barHeightScale_ieee (bg : BarGraph F64) (m : F64) (hm : m ∈ bg.data)
    (hmax : ∀ v ∈ bg.data, F64.le v m = true) :
    bg.barHeightScale Float64.ieee
      = if F64.lt (F64.fin 0) m then F64.div (F64.fin 10) m else F64.fin 10 := by
  have h10 : Float64.ieee.ofInt 10 = F64.fin 10 := by decide!
  unfold BarGraph.barHeightScale
  rw [bg.maxValue_ieee m hm hmax, h10]
  by_cases hlt : F64.lt (F64.fin 0) m = true
  · rw [if_pos hlt, if_pos hlt]
    rfl
  · rw [if_neg hlt, if_neg hlt]
    decide!

theorem LineGraph.maxMin_ieee (lg : LineGraph F64) (first : F64) (rest : List F64)
    (hdata : lg.data = first :: rest) (lo hi : F64)
    (hlo : lo ∈ lg.data) (hmin : ∀ v ∈ lg.data, F64.le lo v = true)
    (hhi : hi ∈ lg.data) (hmax : ∀ v ∈ lg.data, F64.le v hi = true) :
    lg.maxMin Float64.ieee first = (hi, lo) := by
  have hfirst : first ∈ lg.data := by rw [hdata]; exact List.mem_cons_self _ _
  unfold LineGraph.maxMin
  simp only []
  rw [foldl_maxMin_pair]
  congr 1
  · apply F64.foldl_max
    · exact List.mem_cons_of_mem _ hhi
    · intro v hv
      rcases List.mem_cons.mp hv with rfl | hv
      · exact hmax _ hfirst
      · exact hmax v hv
  · apply F64.foldl_min
    · exact List.mem_cons_of_mem _ hlo
    · intro v hv
      rcases List.mem_cons.mp hv with rfl | hv
      · exact hmin _ hfirst
      · exact hmin v hv

/-- The row of the value used as the maximum is 0, whatever the series:
the difference is 0 or NaN, and so is its product by the scale. -/
theorem LineGraph.yValue_ieee_top (lg : LineGraph F64) (first : F64)
    (hH : 1 ≤ lg.options.Height) :
    lg.yValue Float64.ieee first (lg.maxValue Float64.ieee first) = 0 := by
  have h := F64.toInt_Round_mul_sub_self (lg.maxValue Float64.ieee first)
    (lg.yScale Float64.ieee first)
  unfold LineGraph.yValue
  simp only []
  have hy : Float64.ieee.toInt (Float64.ieee.Round (Float64.ieee.mul
      (Float64.ieee.sub (lg.maxValue Float64.ieee first) (lg.maxValue Float64.ieee first))
      (lg.yScale Float64.ieee first)))
      = F64.toInt (F64.Round (F64.mul
          (F64.sub (lg.maxValue Float64.ieee first) (lg.maxValue Float64.ieee first))
          (lg.yScale Float64.ieee first))) := rfl
  rw [hy]
  generalize F64.toInt (F64.Round (F64.mul
    (F64.sub (lg.maxValue Float64.ieee first) (lg.maxValue Float64.ieee first))
    (lg.yScale Float64.ieee first))) = y at h
  split_ifs <;> omega

/-- The row of the smallest value is the last one when the difference
`maxValue - minValue` is a positive float64 `d`, the height is at most 2^50
and the scale `(Height - 1) / d` is in the normal range of float64. -/
theorem LineGraph.yValue_ieee_bottom (lg : LineGraph F64) (first : F64)
    (hH : 1 ≤ lg.options.Height) (hH50 : lg.options.Height ≤ 1125899906842624) (d : ℚ)
    (hd : F64.sub (lg.maxValue Float64.ieee first) (lg.minValue Float64.ieee first) = F64.fin d)
    (hdpos : 0 < d)
    (h1 : 2 ≤ lg.options.Height → F64.pow2 (-1022) ≤ ((lg.options.Height : ℚ) - 1) / d)
    (h2 : 2 ≤ lg.options.Height → ((lg.options.Height : ℚ) - 1) / d ≤ F64.pow2 1023) :
    lg.yValue Float64.ieee first (lg.minValue Float64.ieee first) = lg.options.Height - 1 := by
  by_cases hH2 : 2 ≤ lg.options.Height
  · have hcast : (((lg.options.Height - 1 : Int)) : ℚ) = (lg.options.Height : ℚ) - 1 := by
      push_cast; ring
    have hof : Float64.ieee.ofInt (lg.options.Height - 1)
        = F64.fin ((lg.options.Height - 1 : Int) : ℚ) :=
      F64.ofInt_eq_fin _ (by rw [abs_of_nonneg (by omega)]; omega)
    have key := F64.toInt_Round_mul_div (lg.options.Height - 1) (by omega) (by omega) d hdpos
      (by rw [hcast]; exact h1 hH2) (by rw [hcast]; exact h2 hH2)
    unfold LineGraph.yValue
    simp only []
    have hs : lg.yScale Float64.ieee first
        = F64.div (F64.fin ((lg.options.Height - 1 : Int) : ℚ)) (F64.fin d) := by
      unfold LineGraph.yScale
      rw [hof]
      show F64.div _ (F64.sub _ _) = _
      rw [hd]
    have hy : Float64.ieee.toInt (Float64.ieee.Round (Float64.ieee.mul
        (Float64.ieee.sub (lg.maxValue Float64.ieee first) (lg.minValue Float64.ieee first))
        (lg.yScale Float64.ieee first))) = lg.options.Height - 1 := by
      rw [hs]
      show F64.toInt (F64.Round (F64.mul (F64.sub _ _) _)) = _
      rw [hd]
      exact key
    rw [hy]
    split_ifs <;> omega
  · have := lg.yValue_range Float64.ieee first (lg.minValue Float64.ieee first) hH
    omega

/-- In float64 arithmetic, for a series without NaN with smallest value
`lo` and largest value `hi`: the minimum used for scaling is `lo` and the
maximum is `hi`, or `lo + 1` (rounded) when the two are equal. -/
theorem LineGraph.minMaxValue_ieee (lg : LineGraph F64) (first : F64) (rest : List F64)
    (hdata : lg.data = first :: rest) (lo hi : F64)
    (hlo : lo ∈ lg.data) (hmin : ∀ v ∈ lg.data, F64.le lo v = true)
    (hhi : hi ∈ lg.data) (hmax : ∀ v ∈ lg.data, F64.le v hi = true) :
    lg.minValue Float64.ieee first = lo ∧
    lg.maxValue Float64.ieee first = (if hi = lo then F64.add lo (F64.fin 1) else hi) := by
  have hmm := lg.maxMin_ieee first rest hdata lo hi hlo hmin hhi hmax
  have h1 : Float64.ieee.ofInt 1 = F64.fin 1 := by decide!
  constructor
  · unfold LineGraph.minValue
    rw [hmm]
  · unfold LineGraph.maxValue
    simp only [hmm, h1]
    have hiff := F64.eq_iff hi lo (hmax hi hhi)
    by_cases h : hi = lo
    · rw [if_pos h, if_pos (show Float64.ieee.eq hi lo = true from hiff.mpr h)]
      rfl
    · rw [if_neg h, if_neg (show ¬ Float64.ieee.eq hi lo = true from fun he => h (hiff.mp he))]

theorem LineGraph.yValue_eq {F : Type} (fl : Float64 F) (lg : LineGraph F) (first v : F)
    (hH : 1 ≤ lg.options.Height) :
    lg.yValue fl first v
      = Max.max 0
          (Min.min
            (fl.toInt (fl.Round (fl.mul (fl.sub (lg.maxValue fl first) v) (lg.yScale fl first))))
            (lg.options.Height - 1)) := by
  unfold LineGraph.yValue
  simp only []
  generalize fl.toInt (fl.Round (fl.mul (fl.sub (lg.maxValue fl first) v)
    (lg.yScale fl first))) = y
  simp only [max_def, min_def]
  split_ifs <;> omega

end graph
/-! ## The claims about the table renderer -/

namespace table

/-- C2, as stated, fails: for the header A and the padding `2^62`, which is
not negative, `Padding * 2` overflows `int` and the width of the column is
`-9223372036854775807`, not `2 * 2^62 + 1`, and less than the rune length of
its cell plus twice the padding. -/
theorem Table.calculateColumnWidths_overflow_counterexample :
    0 ≤ Table.hugePadding.options.Padding ∧
    Table.hugePadding.options.Padding ≤ Go.maxInt ∧
    Table.hugePadding.column 0 = [['A']] ∧
    Table.hugePadding.calculateColumnWidths = [-9223372036854775807] ∧
    2 * Table.hugePadding.options.Padding + utf8.RuneCountInString ['A']
      = 9223372036854775809 ∧
    ¬ (utf8.RuneCountInString ['A'] + 2 * Table.hugePadding.options.Padding
        ≤ -9223372036854775807) := by
  decide

/-- C2, amended: for a table in which no width overflows `int` (a padding
`p` that is not negative, every rune count plus `2*p` at most the largest
`int`), `calculateColumnWidths` returns one width per column, the column count
being the header count when headers are set and else the length of the first
row; the width of column `i` is at least `rune length + 2*p` for every cell of
the column (header `i` and cell `i` of each row that has one) and equals
`2*p + rune length` for one of them, so it is `2*p` plus the maximum; and
for headers A, BB, the row x, yy and padding 1 the widths are 3 and 4. -/
theorem Table.calculateColumnWidths_spec (t : Table) (hfit : t.Fits) :
    t.calculateColumnWidths.length
        = (match t.headers with
           | some hs => hs.length
           | none => (t.data.headD []).length) ∧
    (∀ i, i < t.calculateColumnWidths.length →
      ∃ w, t.calculateColumnWidths[i]? = some w ∧
        (∀ c ∈ t.column i, utf8.RuneCountInString c + 2 * t.options.Padding ≤ w) ∧
        (∃ c ∈ t.column i, w = 2 * t.options.Padding + utf8.RuneCountInString c)) ∧
    (∀ (b : BorderStyle) (a : Alignment),
      Table.calculateColumnWidths
        { headers := some [['A'], ['B', 'B']], data := [[['x'], ['y', 'y']]],
          options := { BorderStyle := b, Alignment := a, Padding := 1 } } = [3, 4]) := by
  refine ⟨?_, ?_, ?_⟩
  · rw [Table.calculateColumnWidths_length]
    unfold Table.numCols
    cases t.headers with
    | some hs => rfl
    | none =>
      cases t.data with
      | nil => rfl
      | cons row0 rest =>
        simp only [List.headD_cons]
        split
        · rfl
        · omega
  · intro i hi
    rw [Table.calculateColumnWidths_length] at hi
    exact t.calculateColumnWidths_column hfit i hi
  · intro b a
    rfl

theorem Table.calculateColumnWidths_spec_witness :
    Table.scenario.Fits ∧
    Table.scenario.calculateColumnWidths.length = 2 ∧
    (∀ i, i < Table.scenario.calculateColumnWidths.length →
      ∃ w, Table.scenario.calculateColumnWidths[i]? = some w ∧
        (∀ c ∈ Table.scenario.column i,
          utf8.RuneCountInString c + 2 * Table.scenario.options.Padding ≤ w) ∧
        (∃ c ∈ Table.scenario.column i,
          w = 2 * Table.scenario.options.Padding + utf8.RuneCountInString c)) :=
  ⟨by decide, (Table.calculateColumnWidths_spec Table.scenario (by decide)).1,
    (Table.calculateColumnWidths_spec Table.scenario (by decide)).2.1⟩

end table

namespace table

end table

namespace table

/-- C7, as stated, fails: with headers set to an empty list and no data
rows, `Render` writes the newline of the empty header line, so its output is
not empty. -/
theorem Table.Render_emptyHeaders_counterexample :
    Table.emptyHeaders.data = [] ∧ Table.emptyHeaders.headers = some [] ∧
    Table.emptyHeaders.Render (Sink.reliable Unit)
      = ({ outcomes := [], written := [['\n']] }, none) ∧
    (Table.emptyHeaders.Render (Sink.reliable Unit)).1.output ≠ [] := by
  decide

/-- C7, amended: for a table with no data rows and any options, when
headers were never set `Render` issues no write and returns nil, whatever the
sink; when headers are set to an empty list it issues exactly one write, the
newline of the header line, and returns nil unless that write fails. -/
theorem Table.Render_empty (ε : Type) (t : Table) (hdata : t.data = []) :
    (t.headers = none → ∀ s : Sink ε, t.Render s = (s, none)) ∧
    (t.headers = some [] → ∀ s : Sink ε, t.Render s = Act.write ['\n'] s) := by
  constructor
  · intro hh s
    have hb : t.bordered = false := t.bordered_of_no_columns (by simp [Table.numCols, hh, hdata])
    rw [Table.Render_eq_runScript]
    simp [Table.script, Table.borderScript, hb, hh, hdata, Act.runScript, Act.skip]
  · intro hh s
    have hb : t.bordered = false := t.bordered_of_no_columns (by simp [Table.numCols, hh])
    rw [Table.Render_eq_runScript]
    simp [Table.script, Table.borderScript, Table.lineScript, hb, hh, hdata, Act.runScript,
      Act.seq_skip_right]

theorem Table.Render_empty_witness :
    NewTable.data = [] ∧ NewTable.headers = none ∧
    NewTable.Render (Sink.reliable Unit) = (Sink.reliable Unit, none) ∧
    Table.emptyHeaders.Render (Sink.reliable Unit)
      = Act.write ['\n'] (Sink.reliable Unit) :=
  ⟨rfl, rfl, (Table.Render_empty Unit NewTable rfl).1 rfl (Sink.reliable Unit),
    (Table.Render_empty Unit Table.emptyHeaders rfl).2 rfl (Sink.reliable Unit)⟩

end table

/-! ## The claims about write errors and about the graph renderers -/

namespace graph

/-- C8: for a bar graph and a line graph whose series is empty, whatever
the labels, the options (widths and heights that are zero or negative, empty
glyph strings) and the float64 operations, `Render` performs no write, the
sink being left as it is, and returns nil. -/
theorem Render_empty_series (ε F : Type) (fl : Float64 F) (labels : List Str)
    (bopts : BarGraphOptions) (lopts : LineGraphOptions) (s : Sink ε) :
    BarGraph.Render fl { data := [], labels := labels, options := bopts } s = (s, none) ∧
    LineGraph.Render fl { data := [], labels := labels, options := lopts } s = (s, none) :=
  ⟨rfl, rfl⟩

end graph

/-! ## The claims about rows of any length and about the scale of the bars -/

namespace graph

/-- C17, as stated, fails: for the series -5, -2, all negative, the largest
value is -2, not 0, and the scale factor is 10, not `10 / (-2) = -5`. -/
theorem BarGraph.barHeightScale_negatives_counterexample :
    (BarGraph.negatives.data ≠ [] ∧
      (∀ v ∈ BarGraph.negatives.data, F64.lt v (F64.fin 0) = true) ∧
      F64.fin (-2) ∈ BarGraph.negatives.data ∧
      ∀ v ∈ BarGraph.negatives.data, F64.le v (F64.fin (-2)) = true) ∧
    BarGraph.negatives.barHeightScale Float64.ieee = F64.fin 10 ∧
    F64.div (F64.fin 10) (F64.fin (-2)) = F64.fin (-5) ∧
    BarGraph.negatives.barHeightScale Float64.ieee ≠ F64.div (F64.fin 10) (F64.fin (-2)) := by
  decide!

/-- C17, amended: in float64 arithmetic, for a non-empty series without NaN
with largest value `m`, the scale factor by which `BarGraph.Render` multiplies
each value is the float64 quotient `10 / m` when `m` is positive and 10 when
it is not: the maximum is taken from 0 upwards and replaced by 1 when it is
0, so that a series without a positive value, all negative values included,
has the scale 10. For a positive `m` whose exact quotient `10 / m` is at most
2^1023 the scale is that quotient rounded to the nearest float64, within half
a unit in the last place; for a smaller `m` the quotient may overflow to
`+Inf`, as it does for `2^-1030`. -/
theorem BarGraph.barHeightScale_spec (bg : BarGraph F64) (m : F64) (hm : m ∈ bg.data)
    (hmax : ∀ v ∈ bg.data, F64.le v m = true) :
    bg.barHeightScale Float64.ieee
      = (if F64.lt (F64.fin 0) m then F64.div (F64.fin 10) m else F64.fin 10) ∧
    bg.maxValue Float64.ieee = (if F64.lt (F64.fin 0) m then m else F64.fin 1) ∧
    (∀ v, bg.barHeight Float64.ieee v
      = F64.toInt (F64.Round (F64.mul v
          (if F64.lt (F64.fin 0) m then F64.div (F64.fin 10) m else F64.fin 10)))) ∧
    (∀ q : ℚ, m = F64.fin q → 0 < q → 10 / q ≤ F64.pow2 1023 →
      bg.barHeightScale Float64.ieee = F64.fin (F64.rndQ (10 / q)) ∧
      |F64.rndQ (10 / q) - 10 / q| ≤ F64.ulp (10 / q) / 2) ∧
    BarGraph.tiny.barHeightScale Float64.ieee = F64.pinf := by
  have hs := bg.barHeightScale_ieee m hm hmax
  refine ⟨hs, bg.maxValue_ieee m hm hmax, ?_, ?_, by decide!⟩
  · intro v
    unfold BarGraph.barHeight
    rw [hs]
    rfl
  · intro q hq hqpos hfin
    refine ⟨?_, F64.abs_rndQ_sub_le _⟩
    have hlt : F64.lt (F64.fin 0) m = true := by
      rw [hq]
      simpa [F64.lt] using hqpos
    rw [hs, if_pos hlt, hq, F64.div_fin, if_neg (ne_of_gt hqpos)]
    apply F64.round_eq_fin
    rw [abs_of_pos (by positivity)]
    exact hfin

theorem BarGraph.barHeightScale_spec_witness :
    (F64.fin 10 ∈ BarGraph.scenario64.data ∧
      ∀ v ∈ BarGraph.scenario64.data, F64.le v (F64.fin 10) = true) ∧
    BarGraph.scenario64.barHeightScale Float64.ieee = F64.fin 1 ∧
    BarGraph.scenario64.barHeightScale Float64.ieee = F64.fin (F64.rndQ (10 / 10)) :=
  ⟨⟨by decide!, by decide!⟩,
    ((BarGraph.barHeightScale_spec BarGraph.scenario64 (F64.fin 10) (by decide!)
      (by decide!)).1).trans (by decide!),
    ((BarGraph.barHeightScale_spec BarGraph.scenario64 (F64.fin 10) (by decide!)
      (by decide!)).2.2.2.1 10 rfl (by norm_num) (by decide!)).1⟩

end graph

namespace table

end table

/-! ## The claims the code does not meet: runs that end in a panic -/

namespace graph

/-- C15, at the failing inputs: with width -1 `BarGraph.Render` writes its
11 bar lines and then panics in `strings.Repeat`, for any float64 operations;
with height -1, or with width -1 and a positive height, `LineGraph.Render`
panics in `make` before any write. -/
theorem Render_negative_size_panics :
    (∀ (F : Type) (fl : Float64 F) (data : List F), data ≠ [] →
      (BarGraph.Render fl
          { data := data, labels := [],
            options := { Width := -1, BarCharacter := ['█'], AxisCharacter := ['─'] } }
          (Sink.reliable Unit)).2 = some Abort.panic) ∧
    (BarGraph.negativeWidth.Render Float64.exact (Sink.reliable Unit)).2 = some Abort.panic ∧
    (BarGraph.negativeWidth.Render Float64.exact (Sink.reliable Unit)).1.written.length = 11 ∧
    LineGraph.negativeHeight.Render Float64.exact (Sink.reliable Unit)
      = (Sink.reliable Unit, some Abort.panic) ∧
    LineGraph.negativeWidth.Render Float64.exact (Sink.reliable Unit)
      = (Sink.reliable Unit, some Abort.panic) := by
  refine ⟨?_, ?_, ?_, ?_, ?_⟩
  · intro F fl data hdata
    rw [BarGraph.Render_negative_width fl _ hdata (show (-1 : Int) < 0 by decide)]
  · rw [BarGraph.Render_negative_width Float64.exact _ (by simp [BarGraph.negativeWidth])
      (by decide)]
  · rw [BarGraph.Render_negative_width Float64.exact _ (by simp [BarGraph.negativeWidth])
      (by decide)]
    rfl
  · exact LineGraph.Render_no_grid Float64.exact _ (by simp [LineGraph.negativeHeight])
      (LineGraph.emptyGrid_negative _ (Or.inl (by decide))) _
  · exact LineGraph.Render_no_grid Float64.exact _ (by simp [LineGraph.negativeWidth])
      (LineGraph.emptyGrid_negative _ (Or.inr ⟨by decide, by decide⟩)) _

/-- C16, at the failing input: three values, the labels January, February
and March, width 10 and height 3. The spacing is 10 / 2 = 5 and January has 7
runes, so `strings.Repeat` is called with the count -2: the label line is not
computed and the render, having written the three rows of the canvas, ends
in a panic instead of writing a misaligned label line. So it is, for any
float64 operations, whenever there are as many labels as values and a label
other than the last is longer than the spacing. -/
theorem LineGraph.Render_long_label_panics :
    (1 ≤ LineGraph.longLabels.options.Width ∧ 1 ≤ LineGraph.longLabels.options.Height ∧
      2 ≤ LineGraph.longLabels.data.length ∧
      LineGraph.longLabels.labels.length = LineGraph.longLabels.data.length) ∧
    LineGraph.longLabels.labelSpacing = 5 ∧
    strings.Repeat [' '] (LineGraph.longLabels.labelSpacing
        - utf8.RuneCountInString "January".toList) = none ∧
    LineGraph.longLabels.labelLine = none ∧
    LineGraph.longLabels.Render Float64.exact (Sink.reliable Unit)
      = ({ outcomes := [],
           written := ["│        *\n".toList, "│   *──── \n".toList, "┼─────────\n".toList] },
         some Abort.panic) ∧
    (∀ (F : Type) (fl : Float64 F) (lg : LineGraph F) (i : Nat) (l : Str),
      lg.data ≠ [] → lg.labels.length = lg.data.length → lg.labels[i]? = some l →
      i + 1 < lg.labels.length → lg.labelSpacing < utf8.RuneCountInString l →
      (lg.Render fl (Sink.reliable Unit)).2 = some Abort.panic) := by
  refine ⟨by decide, by decide, by decide, by decide, by decide!, ?_⟩
  intro F fl lg i l hdata hlen hl hi hlong
  exact LineGraph.Render_label_panic fl lg hdata hlen (lg.labelLine_of_long i l hl hi hlong)

/-- C14, at the failing input: a single value. For any float64 operations
the column of the point is the conversion to `int` of `0 / 0` times
`Width - 1`: the result of a division by zero is used as an index. With NaN
and its conversion as on amd64 the column is -2^63 and the render panics on
the grid access before any write. -/
theorem LineGraph.Render_single_value_panics :
    (∀ (F : Type) (fl : Float64 F) (v : F) (labels : List Str) (o : LineGraphOptions),
      LineGraph.xPos fl { data := [v], labels := labels, options := o } 0
        = fl.toInt (fl.mul (fl.div (fl.ofInt 0) (fl.ofInt 0)) (fl.ofInt (o.Width - 1)))) ∧
    LineGraph.single.xPos Float64.withNaN 0 = -9223372036854775808 ∧
    LineGraph.single.Render Float64.withNaN (Sink.reliable Unit)
      = (Sink.reliable Unit, some Abort.panic) := by
  refine ⟨fun F fl v labels o => rfl, by decide!, by decide!⟩

end graph

/-! ## The claims about the line graph -/

namespace graph

/-- C12, as stated, fails. For the values 0, 47, 94 and height 4 the row of
47 by the formula of the claim is `(94 - 47) * 3 / 94 = 3/2` rounded, 2, while
`LineGraph.Render` multiplies by the scale `3 / 94` rounded to float64: the
product is below `3/2` and the row is 1. And for the two equal values 10^16,
where `lo + 1` is `lo` again in float64, the row of the smallest value is 0,
not `Height - 1 = 9`. -/
theorem LineGraph.yValue_float_counterexample :
    (2 ≤ LineGraph.halfway.data.length ∧ 1 ≤ LineGraph.halfway.options.Height ∧
      (∀ v ∈ LineGraph.halfway.data, F64.le (F64.fin 0) v = true) ∧
      (∀ v ∈ LineGraph.halfway.data, F64.le v (F64.fin 94) = true)) ∧
    LineGraph.halfway.pointRow Float64.ieee 1 = 1 ∧
    Max.max 0 (Min.min (roundHalfAway (((94 : ℚ) - 47) * (4 - 1) / (94 - 0))) (4 - 1)) = 2 ∧
    (2 ≤ LineGraph.absorbed.data.length ∧ 1 ≤ LineGraph.absorbed.options.Height) ∧
    LineGraph.absorbed.pointRow Float64.ieee 0 = 0 ∧
    LineGraph.absorbed.options.Height - 1 = 9 := by
  decide!

/-- C12, amended: in float64 arithmetic, for a series without NaN with
smallest value `lo` and largest value `hi`, the maximum `hi'` being `hi`, or
`lo + 1` when the two are equal, and a height `H` of at least 1: the row of a
value `v` is `Round((hi' - v) * scale)` converted to `int` and clamped to
`[0, H - 1]`, with `scale = float64(H - 1) / (hi' - lo)`, every operation
rounded to float64; it lies in `[0, H - 1]`; the row of `hi'` is 0; and when
the float64 difference `hi' - lo` is a positive number `d`, `H` is at most
2^50 and the exact quotient `(H - 1) / d` is in the normal range of float64
(no overflow, no underflow), the row of `lo` is `H - 1`, so that the rows of
`lo` and `hi` differ when the two differ and `H` is at least 2, as do the two
rows of a series of two distinct values. -/
theorem LineGraph.yValue_spec (lg : LineGraph F64) (first : F64) (rest : List F64)
    (hdata : lg.data = first :: rest) (lo hi : F64)
    (hlo : lo ∈ lg.data) (hmin : ∀ v ∈ lg.data, F64.le lo v = true)
    (hhi : hi ∈ lg.data) (hmax : ∀ v ∈ lg.data, F64.le v hi = true)
    (hH : 1 ≤ lg.options.Height) :
    (lg.minValue Float64.ieee first = lo ∧
      lg.maxValue Float64.ieee first = (if hi = lo then F64.add lo (F64.fin 1) else hi)) ∧
    (∀ v, lg.yValue Float64.ieee first v
      = Max.max 0
          (Min.min
            (F64.toInt (F64.Round (F64.mul
              (F64.sub (if hi = lo then F64.add lo (F64.fin 1) else hi) v)
              (F64.div (F64.ofInt (lg.options.Height - 1))
                (F64.sub (if hi = lo then F64.add lo (F64.fin 1) else hi) lo)))))
            (lg.options.Height - 1))) ∧
    (∀ v, 0 ≤ lg.yValue Float64.ieee first v ∧
      lg.yValue Float64.ieee first v ≤ lg.options.Height - 1) ∧
    (∀ i v, lg.data[i]? = some v → lg.pointRow Float64.ieee i = lg.yValue Float64.ieee first v) ∧
    lg.yValue Float64.ieee first (if hi = lo then F64.add lo (F64.fin 1) else hi) = 0 ∧
    (∀ d : ℚ, F64.sub (if hi = lo then F64.add lo (F64.fin 1) else hi) lo = F64.fin d →
      0 < d → lg.options.Height ≤ 1125899906842624 →
      (2 ≤ lg.options.Height →
        F64.pow2 (-1022) ≤ ((lg.options.Height : ℚ) - 1) / d ∧
        ((lg.options.Height : ℚ) - 1) / d ≤ F64.pow2 1023) →
      lg.yValue Float64.ieee first lo = lg.options.Height - 1 ∧
      (hi ≠ lo → 2 ≤ lg.options.Height →
        lg.yValue Float64.ieee first hi ≠ lg.yValue Float64.ieee first lo) ∧
      (∀ a b, lg.data = [a, b] → a ≠ b → 2 ≤ lg.options.Height →
        lg.pointRow Float64.ieee 0 ≠ lg.pointRow Float64.ieee 1)) := by
  obtain ⟨hminv, hmaxv⟩ := lg.minMaxValue_ieee first rest hdata lo hi hlo hmin hhi hmax
  have hrange : ∀ v, 0 ≤ lg.yValue Float64.ieee first v ∧
      lg.yValue Float64.ieee first v ≤ lg.options.Height - 1 := by
    intro v
    have := lg.yValue_range Float64.ieee first v hH
    omega
  have htop : lg.yValue Float64.ieee first (if hi = lo then F64.add lo (F64.fin 1) else hi)
      = 0 := by
    rw [← hmaxv]
    exact lg.yValue_ieee_top first hH
  refine ⟨⟨hminv, hmaxv⟩, ?_, hrange,
    fun i v hv => lg.pointRow_eq Float64.ieee first rest hdata i v hv, htop, ?_⟩
  · intro v
    rw [lg.yValue_eq Float64.ieee first v hH]
    unfold LineGraph.yScale
    rw [hmaxv, hminv]
    rfl
  · intro d hd hdpos hH50 hnormal
    have hbottom : lg.yValue Float64.ieee first lo = lg.options.Height - 1 := by
      have := lg.yValue_ieee_bottom first hH hH50 d (by rw [hmaxv, hminv]; exact hd) hdpos
        (fun h => (hnormal h).1) (fun h => (hnormal h).2)
      rw [hminv] at this
      exact this
    have hdiff : hi ≠ lo → 2 ≤ lg.options.Height →
        lg.yValue Float64.ieee first hi ≠ lg.yValue Float64.ieee first lo := by
      intro hne hH2
      have : lg.yValue Float64.ieee first hi = 0 := by
        have := htop
        rw [if_neg hne] at this
        exact this
      rw [this, hbottom]
      omega
    refine ⟨hbottom, hdiff, ?_⟩
    intro a b hab hne hH2
    have h0 : lg.data[0]? = some a := by rw [hab]; rfl
    have h1 : lg.data[1]? = some b := by rw [hab]; rfl
    rw [lg.pointRow_eq Float64.ieee first rest hdata 0 a h0,
      lg.pointRow_eq Float64.ieee first rest hdata 1 b h1]
    have hmem : ∀ v ∈ lg.data, v = a ∨ v = b := by
      intro v hv
      rw [hab] at hv
      simpa using hv
    have ha : a ∈ lg.data := by rw [hab]; simp
    have hb : b ∈ lg.data := by rw [hab]; simp
    rcases hmem lo hlo with h1 | h1 <;> rcases hmem hi hhi with h2 | h2
    · -- lo = a = hi: then b = a
      have hb1 : F64.le b a = true := by rw [← h2]; exact hmax b hb
      have hb2 : F64.le a b = true := by rw [← h1]; exact hmin b hb
      have : a = b := F64.eq_of_le_of_lt_false hb2 (F64.lt_false_of_le hb1)
      exact absurd this hne
    · rw [← h1, ← h2]
      exact (hdiff (by rw [h1, h2]; exact Ne.symm hne) hH2).symm
    · rw [← h1, ← h2]
      exact hdiff (by rw [h1, h2]; exact hne) hH2
    · have ha1 : F64.le a b = true := by rw [← h2]; exact hmax a ha
      have ha2 : F64.le b a = true := by rw [← h1]; exact hmin a ha
      have : a = b := F64.eq_of_le_of_lt_false ha1 (F64.lt_false_of_le ha2)
      exact absurd this hne

theorem LineGraph.yValue_spec_witness :
    (LineGraph.threePoints.data = F64.fin 1 :: [F64.fin 3, F64.fin 2] ∧
      F64.fin 1 ∈ LineGraph.threePoints.data ∧
      (∀ v ∈ LineGraph.threePoints.data, F64.le (F64.fin 1) v = true) ∧
      F64.fin 3 ∈ LineGraph.threePoints.data ∧
      (∀ v ∈ LineGraph.threePoints.data, F64.le v (F64.fin 3) = true) ∧
      1 ≤ LineGraph.threePoints.options.Height) ∧
    LineGraph.threePoints.yValue Float64.ieee (F64.fin 1) (F64.fin 3) = 0 ∧
    LineGraph.threePoints.yValue Float64.ieee (F64.fin 1) (F64.fin 1) = 2 :=
  ⟨⟨rfl, by decide!, by decide!, by decide!, by decide!, by decide⟩,
    (by
      have h := (LineGraph.yValue_spec LineGraph.threePoints (F64.fin 1)
        [F64.fin 3, F64.fin 2] rfl (F64.fin 1) (F64.fin 3) (by decide!) (by decide!)
        (by decide!) (by decide!) (by decide)).2.2.2.2.1
      rw [if_neg (by decide!)] at h
      exact h),
    (((LineGraph.yValue_spec LineGraph.threePoints (F64.fin 1)
        [F64.fin 3, F64.fin 2] rfl (F64.fin 1) (F64.fin 3) (by decide!) (by decide!)
        (by decide!) (by decide!) (by decide)).2.2.2.2.2 2 (by decide!) (by norm_num)
        (by decide) (fun _ => ⟨by decide!, by decide!⟩)).1).trans (by decide)⟩

end graph

namespace graph

end graph
end Devchart
